import Mathlib

/-!
Verification development for the in-browser table editor core
(TableModel, MergeService, ValidationService, PasteService, EventBus,
HistoryService, clipboard parsers).

The JavaScript source is shallowly embedded: each class becomes a structure,
each mutating method becomes a pure function returning the updated structure
together with the list of events emitted on the bus.  JavaScript objects that
are mutated in place are modelled by replacing the corresponding list entry;
object identity (`cell === lead`) is modelled by coordinate identity, which
agrees with the source on every state whose cells have pairwise distinct
coordinates (the documented invariant of the model).  JavaScript `undefined`
fields are modelled with `Option`.  Thrown `TypeError`s (access to a field of
`undefined`) are modelled by `Option.none` results.

String primitives (`trim`, `split`, `replace`) are re-implemented over
`String.data` so that every definition evaluates inside the kernel; they agree
with the JavaScript primitives on the ASCII whitespace and separator
characters used by the sources.
-/

/-- ASCII whitespace test used by the embedded `trim`/`split`. -/
def isWsChar (ch : Char) : Bool := ch = ' ' || ch = '\t' || ch = '\n' || ch = '\r'

/-- Embedding of JavaScript `String.prototype.trim` (ASCII whitespace). -/
def trimJs (s : String) : String :=
  ⟨((s.data.dropWhile isWsChar).reverse.dropWhile isWsChar).reverse⟩

/-- Split a character list at every occurrence of `sep` (JavaScript
`String.prototype.split` semantics: `"".split(sep)` is `[""]`). -/
def splitChars (sep : Char) : List Char → List (List Char)
  | [] => [[]]
  | ch :: rest =>
    match splitChars sep rest with
    | [] => [[]]
    | g :: gs => if ch = sep then [] :: g :: gs else (ch :: g) :: gs

/-- Embedding of JavaScript `String.prototype.split` with a one-character
separator. -/
def splitOnCharJs (sep : Char) (s : String) : List String :=
  (splitChars sep s.data).map (fun l => ⟨l⟩)

/-- Embedding of `text.replace(/\r/g, '')`. -/
def stripCR (s : String) : String := ⟨s.data.filter (fun ch => ch ≠ '\r')⟩

/-! ## Data model (TableModel.js typedefs) -/

/-- The `TableMeta`. -/
structure TableMeta where
  name : String
  createdUtc : Option String := none
  notes : Option String := none
deriving DecidableEq, Repr

/-- One entry of `grid.columnSizes`: `{ v:number, u:'px'|'ratio' }`.  The unit
is kept as the raw string so that the constructor's normalisation filter can be
expressed. -/
structure ColumnSize where
  v : Int
  u : String
deriving DecidableEq, Repr

/-- The `TableCell`.  Absent optional JavaScript fields are `none`.  `data` maps
attribute keys to string values (the registry-typed variants are irrelevant to
the claims below). -/
structure Cell where
  r : Nat
  c : Nat
  value : String
  rowSpan : Option Nat := none
  colSpan : Option Nat := none
  classes : Option (List String) := none
  data : Option (List (String × String)) := none
deriving DecidableEq, Repr

/-- The `grid` of a document / model.  A missing `headerRows` is `0` (the
constructor coerces both to `0`). -/
structure GridData where
  rows : Nat
  cols : Nat
  headerRows : Nat := 0
  columnSizes : Option (List ColumnSize) := none
deriving DecidableEq, Repr

/-- The `TableDocument` (JSON schema v1). -/
structure Document where
  version : Nat
  meta : TableMeta
  grid : GridData
  cells : List Cell
deriving DecidableEq, Repr

/-- The in-memory `TableModel` state (the `(r,c) → Cell` index is a derived
cache and is represented by the `getCell` function below). -/
structure TableModel where
  version : Nat
  meta : TableMeta
  grid : GridData
  cells : List Cell
deriving DecidableEq, Repr

/-- Events emitted on the bus by the core operations, with the payload fields
the claims talk about. -/
inductive Event where
  | cellChangeValue (r c : Nat) (oldValue newValue : String)
  | cellChangeClasses (r c : Nat)
  | cellChangeData (r c : Nat)
  | structureChange (type : String)
  | pasteEv (startR startC rows cols : Nat) (html : Bool)
  | mergeEv (r1 c1 r2 c2 rowSpan colSpan : Nat)
  | splitEv (r c rowSpan colSpan : Nat)
deriving DecidableEq, Repr

/-- The `cell.rowSpan || 1` — JavaScript `||` treats both `undefined` and `0` as
falsy. -/
def spanOf : Option Nat → Nat
  | none => 1
  | some 0 => 1
  | some n => n

/-- The `!cell.rowSpan` — truthiness test of an optional numeric field. -/
def jsFalsySpan : Option Nat → Bool
  | none => true
  | some 0 => true
  | some _ => false

/-- The `cell.classes && cell.classes.length` as a boolean. -/
def jsListTruthy : Option (List String) → Bool
  | some (_ :: _) => true
  | _ => false

/-- The `cell.data && Object.keys(cell.data).length` as a boolean. -/
def jsDataTruthy : Option (List (String × String)) → Bool
  | some (_ :: _) => true
  | _ => false

/-! ## The `(r,c) → Cell` index

`_rebuildIndex` inserts the cells in list order into a map, so a lookup
returns the *last* cell of the list with the given coordinates. -/

/-- Coordinate predicate for index updates. -/
def atCoord (r c : Nat) (x : Cell) : Bool := x.r = r && x.c = c

/-- Lookup in the rebuilt index: last cell of the list with coordinates
`(r,c)`. -/
def cellsFind (cells : List Cell) (r c : Nat) : Option Cell :=
  cells.foldl (fun acc x => if atCoord r c x then some x else acc) none

/-- The `TableModel.getCell`. -/
def TableModel.getCell (m : TableModel) (r c : Nat) : Option Cell :=
  cellsFind m.cells r c

/-- Replace the first list entry satisfying `p` by its image under `f`. -/
def updateFirst (p : Cell → Bool) (f : Cell → Cell) : List Cell → List Cell
  | [] => []
  | x :: xs => if p x then f x :: xs else x :: updateFirst p f xs

/-- Replace the last list entry satisfying `p` by its image under `f` — the
in-place mutation of the object returned by the index lookup. -/
def updateLast (cells : List Cell) (p : Cell → Bool) (f : Cell → Cell) : List Cell :=
  (updateFirst p f cells.reverse).reverse

/-! ## TableModel constructor and serialisation -/

/-- The `columnSizes` normalisation from the constructor / `applyDocument`: keep
only well-formed `{v,u}` entries, and store `null` when nothing survives. -/
def normalizeColumnSizes : Option (List ColumnSize) → Option (List ColumnSize)
  | none => none
  | some l =>
    let l2 := l.filter (fun cs => cs.u = "px" || cs.u = "ratio")
    if l2.isEmpty then none else some l2

/-- The `doc.version || 1`. -/
def versionOf (n : Nat) : Nat := if n = 0 then 1 else n

/-- The `doc.grid.headerRows ? doc.grid.headerRows : 0` over `Nat` (the absent
field is represented by `0`). -/
def headerRowsOf (n : Nat) : Nat := if n = 0 then 0 else n

/-- The `new TableModel(doc)` (the event-bus argument is immaterial for state). -/
def TableModel.ofDoc (doc : Document) : TableModel :=
  { version := versionOf doc.version
    meta := doc.meta
    grid :=
      { rows := doc.grid.rows
        cols := doc.grid.cols
        headerRows := headerRowsOf doc.grid.headerRows
        columnSizes := normalizeColumnSizes doc.grid.columnSizes }
    cells := doc.cells }

/-- Keep-filter of `TableModel.toJSON`: a cell survives serialisation iff
`rowSpan !== 1 || colSpan !== 1 || value !== '' || classes?.length ||
data-keys-length` (note `undefined !== 1` is *true*, so a cell without
explicit spans is always kept). -/
def keepCellJson (c : Cell) : Bool :=
  c.rowSpan ≠ some 1 || c.colSpan ≠ some 1 || c.value ≠ "" ||
    jsListTruthy c.classes || jsDataTruthy c.data

/-- The `TableModel.toJSON`. -/
def TableModel.toJSON (m : TableModel) : Document :=
  { version := m.version
    meta := m.meta
    grid :=
      { rows := m.grid.rows
        cols := m.grid.cols
        headerRows := headerRowsOf m.grid.headerRows
        columnSizes := m.grid.columnSizes }
    cells := m.cells.filter keepCellJson }

/-! ## TableModel mutators -/

/-- The `TableModel.setCellValue`: create the leading cell lazily (empty value,
explicit spans `1×1`), then assign the value and emit one
`cell:change`/`value` event.  There is no covered-coordinate check. -/
def TableModel.setCellValue (m : TableModel) (r c : Nat) (value : String) :
    TableModel × List Event :=
  match m.getCell r c with
  | some cell =>
    ({ m with cells := updateLast m.cells (atCoord r c) (fun x => { x with value := value }) },
      [.cellChangeValue r c cell.value value])
  | none =>
    ({ m with cells :=
        m.cells ++ [{ r := r, c := c, value := value, rowSpan := some 1, colSpan := some 1 }] },
      [.cellChangeValue r c "" value])

/-- The `TableModel.ensureSize` (grow-only; extends `columnSizes` with `{1,ratio}`
defaults; emits `structure:change`/`resize` iff something grew). -/
def TableModel.ensureSize (m : TableModel) (rows cols : Nat) : TableModel × List Event :=
  let rowChanged := m.grid.rows < rows
  let colChanged := m.grid.cols < cols
  let rows2 := if rowChanged then rows else m.grid.rows
  let sizes2 :=
    if colChanged then
      match m.grid.columnSizes with
      | some l => some (l ++ List.replicate (cols - m.grid.cols) ⟨1, "ratio"⟩)
      | none => none
    else m.grid.columnSizes
  let cols2 := if colChanged then cols else m.grid.cols
  if rowChanged || colChanged then
    ({ m with grid := { m.grid with rows := rows2, cols := cols2, columnSizes := sizes2 } },
      [.structureChange "resize"])
  else (m, [])

/-- The `count = Number(count) || 1` for a natural-number count. -/
def normCount (n : Nat) : Nat := if n = 0 then 1 else n

/-- The per-cell case analysis of `TableModel.deleteRows`. -/
inductive DelOutcome where
  | keep (c : Cell)
  | drop
  | interior
deriving DecidableEq, Repr

/-- Classification of one leading cell against the deleted row band
`rFrom..rTo`, mirroring the branch order of `deleteRows`. -/
def delRowClassify (rFrom rTo count : Nat) (cell : Cell) : DelOutcome :=
  let rs := spanOf cell.rowSpan
  let top := cell.r
  let bottom := cell.r + rs - 1
  if bottom < rFrom then .keep cell
  else if rTo < top then .keep { cell with r := cell.r - count }
  else if rFrom ≤ top ∧ bottom ≤ rTo then .drop
  else if top < rFrom ∧ rTo < bottom then .interior
  else if top < rFrom then .keep { cell with rowSpan := some (rFrom - top) }
  else .keep { cell with r := rFrom, rowSpan := some (bottom - rTo) }

/-- The in-place field mutation a cell has undergone by the time the loop of
`deleteRows` has passed it (dropped cells are merely not pushed onto
`newCells`; their objects are unchanged). -/
def delRowMut (rFrom rTo count : Nat) (cell : Cell) : Cell :=
  match delRowClassify rFrom rTo count cell with
  | .keep c => c
  | _ => cell

/-- The cell loop of `deleteRows`.  `Except.ok` carries `newCells`;
`Except.error` carries what `this.cells` holds after the early return on an
interior cut: already-processed objects keep their in-place mutations, the
offending cell and everything after it are untouched. -/
def delRowsGo (rFrom rTo count : Nat) : List Cell → Except (List Cell) (List Cell)
  | [] => .ok []
  | cell :: rest =>
    match delRowClassify rFrom rTo count cell with
    | .interior => .error (cell :: rest)
    | .drop =>
      match delRowsGo rFrom rTo count rest with
      | .ok tail => .ok tail
      | .error tail => .error (cell :: tail)
    | .keep c2 =>
      match delRowsGo rFrom rTo count rest with
      | .ok tail => .ok (c2 :: tail)
      | .error tail => .error (c2 :: tail)

/-- Result object `{ok:boolean, reason?|error?:string}`. -/
inductive OpResult where
  | ok
  | err (msg : String)
deriving DecidableEq, Repr

/-- The `TableModel.deleteRows(start, count)`.  Negative inputs are not
representable over `Nat`, so the `count <= 0` and `start < 0` clamps of the
source are vacuous here. -/
def TableModel.deleteRows (m : TableModel) (start count0 : Nat) :
    OpResult × TableModel × List Event :=
  let count1 := normCount count0
  if m.grid.rows ≤ count1 then (.err "min-rows-violation", m, [])
  else if m.grid.rows ≤ start then (.err "start-out-of-range", m, [])
  else
    let count := if m.grid.rows < start + count1 then m.grid.rows - start else count1
    let rFrom := start
    let rTo := start + count - 1
    match delRowsGo rFrom rTo count m.cells with
    | .error cs => (.err "interior-merge-cut", { m with cells := cs }, [])
    | .ok cs =>
      let rows2 := m.grid.rows - count
      let hdr2 := if rows2 < m.grid.headerRows then rows2 else m.grid.headerRows
      (.ok,
        { m with cells := cs, grid := { m.grid with rows := rows2, headerRows := hdr2 } },
        [.structureChange "deleteRows"])

/-! ## MergeService (the text-concatenating variant) -/

/-- Row-major list of the coordinates of the rectangle with top-left `(r,c)`,
height `rs` and width `cs`. -/
def rectCoords (r c rs cs : Nat) : List (Nat × Nat) :=
  ((List.range rs).product (List.range cs)).map (fun p => (r + p.1, c + p.2))

/-- The rectangle-intersection test shared by `mergeRange` and
`validateMergeOperation`: `!(r2 < cell.r || cellR2 < r1 || c2 < cell.c ||
cellC2 < c1)` with `cellR2 = cell.r + rowSpan - 1`. -/
def overlapsRectB (r1 c1 r2 c2 : Nat) (cell : Cell) : Bool :=
  !(decide (r2 < cell.r) || decide (cell.r + spanOf cell.rowSpan - 1 < r1) ||
    decide (c2 < cell.c) || decide (cell.c + spanOf cell.colSpan - 1 < c1))

/-- Absorption: the new rectangle fully contains the existing cell. -/
def newContainsB (r1 c1 r2 c2 : Nat) (cell : Cell) : Bool :=
  decide (r1 ≤ cell.r) && decide (cell.r + spanOf cell.rowSpan - 1 ≤ r2) &&
    decide (c1 ≤ cell.c) && decide (cell.c + spanOf cell.colSpan - 1 ≤ c2)

/-- Containment: the existing cell fully contains the new rectangle. -/
def existingContainsB (r1 c1 r2 c2 : Nat) (cell : Cell) : Bool :=
  decide (cell.r ≤ r1) && decide (r2 ≤ cell.r + spanOf cell.rowSpan - 1) &&
    decide (cell.c ≤ c1) && decide (c2 ≤ cell.c + spanOf cell.colSpan - 1)

/-- The defensive overlap loop of `mergeRange`: cells with both spans `1` are
skipped; an overlapping merged cell is legal only when one rectangle fully
contains the other.  Returns the first error message, if any. -/
def mergeGuardLoop (r1 c1 r2 c2 : Nat) : List Cell → Option String
  | [] => none
  | cell :: rest =>
    if spanOf cell.rowSpan = 1 ∧ spanOf cell.colSpan = 1 then
      mergeGuardLoop r1 c1 r2 c2 rest
    else if overlapsRectB r1 c1 r2 c2 cell &&
        !(newContainsB r1 c1 r2 c2 cell || existingContainsB r1 c1 r2 c2 cell) then
      some "Конфликт merge (частичное пересечение)"
    else mergeGuardLoop r1 c1 r2 c2 rest

/-- Value collection of `mergeRange`: non-empty trimmed values of the leading
cells inside the (normalised) rectangle, in row-major order. -/
def collectValues (m : TableModel) (r1 c1 r2 c2 : Nat) : List String :=
  (rectCoords r1 c1 (r2 - r1 + 1) (c2 - c1 + 1)).foldr
    (fun p acc =>
      match m.getCell p.1 p.2 with
      | some cell => let t := trimJs cell.value; if t = "" then acc else t :: acc
      | none => acc)
    []

/-- The leading cell after a merge: spans assigned, and the space-joined
collected text assigned when any was collected. -/
def mergedLead (lead : Cell) (rowSpan colSpan : Nat) (collected : List String) : Cell :=
  if collected.isEmpty then { lead with rowSpan := some rowSpan, colSpan := some colSpan }
  else
    { lead with
        rowSpan := some rowSpan
        colSpan := some colSpan
        value := String.intercalate " " collected }

/-- The keep-filter of `mergeRange`: the leading cell survives, every other
cell inside the rectangle is absorbed. -/
def mergeKeep (r1 c1 r2 c2 : Nat) (x : Cell) : Bool :=
  (x.r = r1 && x.c = c1) ||
    !(decide (r1 ≤ x.r) && decide (x.r ≤ r2) && decide (c1 ≤ x.c) && decide (x.c ≤ c2))

/-- The `mergeRange(model, r1, c1, r2, c2)` from `MergeService.js`, concatenating
variant: normalise, bounds-check, defensive overlap guard, collect the texts,
ensure a leading cell, assign the spans, join the collected texts (one
`cell:change`/`value` event), drop the absorbed cells, emit `merge`. -/
def mergeRange (m : TableModel) (ra ca rb cb : Nat) : OpResult × TableModel × List Event :=
  let r1 := min ra rb
  let r2 := max ra rb
  let c1 := min ca cb
  let c2 := max ca cb
  if m.grid.rows ≤ r2 ∨ m.grid.cols ≤ c2 then
    (.err "Диапазон выходит за пределы таблицы (ожидалась предварительная валидация)", m, [])
  else
    let rowSpan := r2 - r1 + 1
    let colSpan := c2 - c1 + 1
    if rowSpan = 1 ∧ colSpan = 1 then (.ok, m, [])
    else
      match mergeGuardLoop r1 c1 r2 c2 m.cells with
      | some msg => (.err msg, m, [])
      | none =>
        let collected := collectValues m r1 c1 r2 c2
        let created := (m.getCell r1 c1).isNone
        let m1 := if created then (m.setCellValue r1 c1 "").1 else m
        let evs1 : List Event := if created then [.cellChangeValue r1 c1 "" ""] else []
        match m1.getCell r1 c1 with
        | none => (.err "unreachable", m1, evs1)
        | some lead =>
          let lead2 := mergedLead lead rowSpan colSpan collected
          let evs2 : List Event :=
            if collected.isEmpty then []
            else [.cellChangeValue r1 c1 lead.value (String.intercalate " " collected)]
          let cells2 := (updateLast m1.cells (atCoord r1 c1)
            (fun _ => lead2)).filter (mergeKeep r1 c1 r2 c2)
          (.ok, { m1 with cells := cells2 },
            evs1 ++ evs2 ++ [.mergeEv r1 c1 r2 c2 rowSpan colSpan])

/-- The fill loop of `splitCell`: for every coordinate of the former rectangle
except the leading one, create an empty cell when none exists. -/
def splitFill (start : TableModel × List Event) (coords : List (Nat × Nat)) (r c : Nat) :
    TableModel × List Event :=
  coords.foldl
    (fun acc p =>
      if p.1 = r ∧ p.2 = c then acc
      else
        match acc.1.getCell p.1 p.2 with
        | some _ => acc
        | none =>
          let step := acc.1.setCellValue p.1 p.2 ""
          (step.1, acc.2 ++ step.2))
    start

/-- The `cell.rowSpan = 1; cell.colSpan = 1` — the in-place span reset of
`splitCell`. -/
def resetSpansCell (x : Cell) : Cell := { x with rowSpan := some 1, colSpan := some 1 }

/-- The `splitCell(model, r, c)` from `MergeService.js`. -/
def splitCell (m : TableModel) (r c : Nat) : OpResult × TableModel × List Event :=
  match m.getCell r c with
  | none => (.err "Нет ведущей ячейки по координатам", m, [])
  | some cell =>
    let rs := spanOf cell.rowSpan
    let cs := spanOf cell.colSpan
    if rs = 1 ∧ cs = 1 then (.ok, m, [])
    else
      let m1 : TableModel := { m with cells := updateLast m.cells (atCoord r c) resetSpansCell }
      let filled := splitFill (m1, []) (rectCoords r c rs cs) r c
      (.ok, filled.1, filled.2 ++ [.splitEv r c rs cs])

/-! ## Clipboard parsers and PasteService -/

/-- The `parseClipboardMatrix(text)`: strip `\r`, split on `\n`, drop one trailing
empty line, split each line on `\t`. -/
def parseClipboardMatrix (text : String) : List (List String) :=
  let lines := splitOnCharJs '\n' (stripCR text)
  let lines2 :=
    if lines.getLast? = some "" then lines.dropLast else lines
  lines2.map (splitOnCharJs '\t')

/-- The nested cell loop of `applyPaste`: `matrix[i][j]` for `i < rows`,
`j < cols`, where `cols` is the length of the *first* row.  An access past the
end of a row yields `undefined` and `undefined.trim()` throws, modelled by
`none`. -/
def pasteLoop (matrix : List (List String)) (startR startC : Nat) :
    List (Nat × Nat) → TableModel → Option (TableModel × List Event)
  | [], m => some (m, [])
  | p :: rest, m =>
    match (matrix.get? p.1).bind (fun row => row.get? p.2) with
    | none => none
    | some raw =>
      let step := m.setCellValue (startR + p.1) (startC + p.2) (trimJs raw)
      match pasteLoop matrix startR startC rest step.1 with
      | none => none
      | some (m2, evs) => some (m2, step.2 ++ evs)

/-- The `applyPaste(model, startR, startC, matrix)`.  `none` models the uncaught
`TypeError` raised on a ragged matrix whose later row is shorter than the
first. -/
def applyPaste (m : TableModel) (startR startC : Nat) (matrix : List (List String)) :
    Option (TableModel × List Event) :=
  let rows := matrix.length
  let cols := if rows = 0 then 0 else (matrix.headD []).length
  let sized := m.ensureSize (startR + rows) (startC + cols)
  match pasteLoop matrix startR startC (rectCoords 0 0 rows cols) sized.1 with
  | none => none
  | some (m2, evs) =>
    some (m2, sized.2 ++ evs ++ [.pasteEv startR startC rows cols false])

/-! ## ValidationService -/

/-- The existing-merge loop of `validateMergeOperation` (the variant that
accepts both absorption and containment).  Cells whose two span fields are
both falsy are skipped as "not a merge cell". -/
def vmoLoop (minR maxR minC maxC : Nat) : List Cell → OpResult
  | [] => .ok
  | cell :: rest =>
    if jsFalsySpan cell.rowSpan && jsFalsySpan cell.colSpan then
      vmoLoop minR maxR minC maxC rest
    else if overlapsRectB minR minC maxR maxC cell &&
        !(newContainsB minR minC maxR maxC cell || existingContainsB minR minC maxR maxC cell) then
      .err ("Конфликт с существующим merge в (" ++ toString cell.r ++ "," ++
        toString cell.c ++ ")")
    else vmoLoop minR maxR minC maxC rest

/-- The `ValidationService.validateMergeOperation(r1,c1,r2,c2)`: normalise,
bounds-check, scan the existing cells.  (`minR < 0` is unrepresentable over
`Nat`.) -/
def validateMergeOperation (m : TableModel) (r1 c1 r2 c2 : Nat) : OpResult :=
  let minR := min r1 r2
  let maxR := max r1 r2
  let minC := min c1 c2
  let maxC := max c1 c2
  if m.grid.rows ≤ maxR ∨ m.grid.cols ≤ maxC then
    .err "Диапазон выходит за границы таблицы"
  else vmoLoop minR maxR minC maxC m.cells

/-- The `ValidationService.validateMergeConflicts`: walk an occupancy set over
every cell rectangle; report each coordinate that is claimed twice (error
strings abstracted to the offending coordinates). -/
def validateMergeConflicts (cells : List Cell) : List (Nat × Nat) :=
  (cells.foldl
    (fun (acc : List (Nat × Nat) × List (Nat × Nat)) cell =>
      (rectCoords cell.r cell.c (spanOf cell.rowSpan) (spanOf cell.colSpan)).foldl
        (fun acc2 p =>
          if p ∈ acc2.1 then (acc2.1, acc2.2 ++ [p]) else (acc2.1 ++ [p], acc2.2))
        acc)
    ([], [])).2

/-! ## EventBus -/

/-- What the bus hands to subscribers: a delivered `(name, payload)` pair or
the synthetic `batch:flush` event with its `bufferedEventCount`. -/
inductive BusOut (α : Type) where
  | ev (name : String) (payload : α)
  | flush (count : Nat)
deriving DecidableEq, Repr

/-- Bus state: the pause depth and the buffer `Map<eventName, payload[]>`,
kept as an association list in key-insertion order (`_paused` is always
`pauseDepth > 0` and is not stored separately). -/
structure BusState (α : Type) where
  pauseDepth : Nat
  buffer : List (String × List α)
deriving DecidableEq, Repr

/-- Buffer insertion: append the payload to the group of its event name,
creating the group at the end on first use (JavaScript `Map` key order). -/
def bufAdd : List (String × List α) → String → α → List (String × List α)
  | [], name, p => [(name, [p])]
  | g :: rest, name, p =>
    if g.1 = name then (g.1, g.2 ++ [p]) :: rest else g :: bufAdd rest name p

/-- The `EventBus.emit`: deliver immediately, or buffer while paused. -/
def busEmit (s : BusState α) (name : String) (p : α) : BusState α × List (BusOut α) :=
  if 0 < s.pauseDepth then ({ s with buffer := bufAdd s.buffer name p }, [])
  else (s, [.ev name p])

/-- Replay of the buffer on the transition to depth 0: all payloads of the
first-inserted name, then the second, and so on. -/
def flushOuts (buf : List (String × List α)) : List (BusOut α) :=
  buf.flatMap (fun g => g.2.map (BusOut.ev g.1))

/-- The `[...buffered.values()].reduce((a, arr) => a + arr.length, 0)`. -/
def bufTotal (buf : List (String × List α)) : Nat :=
  (buf.map (fun g => g.2.length)).sum

/-- The `EventBus.resume`: on the transition to depth 0 replay the buffer and then
deliver `batch:flush` with the total buffered payload count. -/
def busResume (s : BusState α) : BusState α × List (BusOut α) :=
  if s.pauseDepth = 0 then (s, [])
  else if s.pauseDepth = 1 then
    (⟨0, []⟩, flushOuts s.buffer ++ [.flush (bufTotal s.buffer)])
  else (⟨s.pauseDepth - 1, s.buffer⟩, [])

/-- The `EventBus.pause`. -/
def busPause (s : BusState α) : BusState α := { s with pauseDepth := s.pauseDepth + 1 }

/-- A sequence of `emit` calls, with the concatenated immediate deliveries. -/
def busEmitRun (s : BusState α) : List (String × α) → BusState α × List (BusOut α)
  | [] => (s, [])
  | e :: rest =>
    let step := busEmit s e.1 e.2
    let tail := busEmitRun step.1 rest
    (tail.1, step.2 ++ tail.2)

/-! ## HistoryService -/

/-- The `HistoryService` state.  `index` is a JavaScript integer (`-1` when
empty). -/
structure HistoryService (α : Type) where
  limit : Nat
  stack : List α
  index : Int
  suspended : Bool
deriving DecidableEq, Repr

/-- The `new HistoryService(limit)`. -/
def HistoryService.init (limit : Nat) : HistoryService α :=
  ⟨limit, [], -1, false⟩

/-- The `this.stack[i]` for an integer index. -/
def stackAt (l : List α) (i : Int) : Option α :=
  if i < 0 then none else l.get? i.toNat

/-- The `HistoryService.record(model)` applied to the snapshot `model.toJSON()`:
skip while suspended, skip an exact duplicate of the snapshot at the cursor,
truncate the redo tail, push, and either drop the oldest (cursor unchanged)
or advance the cursor. -/
def HistoryService.record [DecidableEq α] (h : HistoryService α) (doc : α) :
    HistoryService α :=
  if h.suspended then h
  else if stackAt h.stack h.index = some doc then h
  else
    let stack1 :=
      if h.index < (h.stack.length : Int) - 1 then h.stack.take (h.index + 1).toNat
      else h.stack
    let stack2 := stack1 ++ [doc]
    if h.limit < stack2.length then { h with stack := stack2.drop 1 }
    else { h with stack := stack2, index := h.index + 1 }

/-- The `HistoryService.canUndo`. -/
def HistoryService.canUndo (h : HistoryService α) : Bool := 0 < h.index

/-- The `HistoryService._getCurrent`. -/
def HistoryService.getCurrent (h : HistoryService α) : Option α :=
  stackAt h.stack h.index

/-- The `HistoryService.undo`: move the cursor back and return the document at it
(without applying). -/
def HistoryService.undo (h : HistoryService α) : Option α × HistoryService α :=
  if h.canUndo then
    let h1 := { h with index := h.index - 1 }
    (h1.getCurrent, h1)
  else (none, h)

/-- A sequence of `record` calls. -/
def HistoryService.recordRun [DecidableEq α] (h : HistoryService α) (ds : List α) :
    HistoryService α :=
  ds.foldl HistoryService.record h

/-- The `n` consecutive `undo` calls with their results. -/
def HistoryService.undoRun : HistoryService α → Nat → List (Option α) × HistoryService α
  | h, 0 => ([], h)
  | h, n + 1 =>
    let step := h.undo
    let rest := HistoryService.undoRun step.2 n
    (step.1 :: rest.1, rest.2)

/-! ## HTML clipboard table parser

The DOM extraction (`querySelector('table')`, `querySelectorAll('tr')`,
`querySelectorAll('th,td')`, attribute reads) is not part of the embedding;
its result is the input: one list of `(textContent, rowspan, colspan)`
triples per `<tr>` row, with the spans already passed through
`parseInt(x || '1', 10) || 1`'s coercion to a positive count. -/

/-- One `<th>`/`<td>` element as extracted from the DOM. -/
structure HtmlCellIn where
  value : String
  rowSpan : Nat
  colSpan : Nat
deriving DecidableEq, Repr

/-- A normalised leading-cell record of the parser result. -/
structure ParsedCell where
  r : Nat
  c : Nat
  value : String
  rowSpan : Nat
  colSpan : Nat
deriving DecidableEq, Repr

/-- The parser result `{rows, cols, cells}` (the `success:false` case is the
`none` of `parseClipboardHtmlTable`). -/
structure ParsedTable where
  rows : Nat
  cols : Nat
  cells : List ParsedCell
deriving DecidableEq, Repr

/-- The `parseInt(attr || '1', 10) || 1` keeps positive counts and turns `0` into
`1`. -/
def spanAttr (n : Nat) : Nat := if n = 0 then 1 else n

/-- The `occupancy[rr][cc] = true`: idempotent insertion, so the occupancy list
never holds duplicates. -/
def occAdd (occ : List (Nat × Nat)) (p : Nat × Nat) : List (Nat × Nat) :=
  if p ∈ occ then occ else occ ++ [p]

/-- Mark the rectangle of a placed cell as occupied. -/
def markRect (occ : List (Nat × Nat)) (r c rs cs : Nat) : List (Nat × Nat) :=
  (rectCoords r c rs cs).foldl occAdd occ

/-- The `while (occupancy[r][cIndex]) cIndex++`.  The fuel `occ.length + 1`
always suffices: the occupancy list is duplicate-free, so among
`occ.length + 1` consecutive columns at least one is unoccupied. -/
def skipOcc (occ : List (Nat × Nat)) (r : Nat) : Nat → Nat → Nat
  | 0, c => c
  | fuel + 1, c => if (r, c) ∈ occ then skipOcc occ r fuel (c + 1) else c

/-- The `th,td` loop of one row: skip occupied columns, emit the record, mark
its rectangle, advance the cursor past the colspan.  Returns the final
occupancy, the final column cursor, and the emitted records. -/
def procCells (occ : List (Nat × Nat)) (r : Nat) (cIndex : Nat) :
    List HtmlCellIn → List (Nat × Nat) × Nat × List ParsedCell
  | [] => (occ, cIndex, [])
  | cell :: rest =>
    let c1 := skipOcc occ r (occ.length + 1) cIndex
    let rs := spanAttr cell.rowSpan
    let cs := spanAttr cell.colSpan
    let occ2 := markRect occ r c1 rs cs
    let tail := procCells occ2 r (c1 + cs) rest
    (tail.1, tail.2.1, ⟨r, c1, trimJs cell.value, rs, cs⟩ :: tail.2.2)

/-- The `tr` loop: per row, skip occupied columns from 0, process the cells,
fold the row's final cursor into `maxCols`. -/
def procRows (occ : List (Nat × Nat)) (r maxCols : Nat) :
    List (List HtmlCellIn) → Nat × List ParsedCell
  | [] => (maxCols, [])
  | row :: rest =>
    let c0 := skipOcc occ r (occ.length + 1) 0
    let step := procCells occ r c0 row
    let maxCols2 := if maxCols < step.2.1 then step.2.1 else maxCols
    let tail := procRows step.1 (r + 1) maxCols2 rest
    (tail.1, step.2.2 ++ tail.2)

/-- The `parseClipboardHtmlTable`, from the extracted row structure on: `none` is
the `{success:false}` result for a table without rows. -/
def parseClipboardHtmlTable (rows : List (List HtmlCellIn)) : Option ParsedTable :=
  if rows.isEmpty then none
  else
    let walk := procRows [] 0 0 rows
    some ⟨rows.length, walk.1, walk.2⟩

/-! ## Spec-side geometric predicates -/

/-- Test that `(r,c)` lies inside the merge rectangle of `x`. -/
def cellInRect (x : Cell) (r c : Nat) : Bool :=
  x.r ≤ r && r < x.r + spanOf x.rowSpan && x.c ≤ c && c < x.c + spanOf x.colSpan

/-- Test that `(r,c)` is a *covered* coordinate of the model: inside some cell's merge
rectangle but not at its top-left. -/
def coveredIn (m : TableModel) (r c : Nat) : Bool :=
  m.cells.any (fun x => cellInRect x r c && !(x.r = r && x.c = c))

/-- The merge rectangles of two cells intersect. -/
def rectsIntersect (a b : Cell) : Bool :=
  a.r < b.r + spanOf b.rowSpan && b.r < a.r + spanOf a.rowSpan &&
    a.c < b.c + spanOf b.colSpan && b.c < a.c + spanOf a.colSpan

/-- Some two distinct entries of the cell list have intersecting rectangles. -/
def hasOverlap : List Cell → Bool
  | [] => false
  | x :: xs => xs.any (rectsIntersect x) || hasOverlap xs
/-- C1: the claimed invariant — no leading cell at a covered coordinate, no two
leading-cell rectangles overlapping, after any public operation — is violated
by the code: `setCellValue` at the covered coordinate `(1,1)` of a `2×2` merge
creates a `1×1` leading cell inside the merge rectangle, and the model's own
`validateMergeConflicts` flags the resulting state. -/
theorem C1_code_bug :
    let doc : Document :=
      ⟨1, ⟨"t", none, none⟩, ⟨2, 2, 0, none⟩, [⟨0, 0, "", some 2, some 2, none, none⟩]⟩
    let m := TableModel.ofDoc doc
    let m2 := (m.setCellValue 1 1 "x").1
    m2.getCell 1 1 = some ⟨1, 1, "x", some 1, some 1, none, none⟩ ∧
    coveredIn m 1 1 = true ∧
    hasOverlap m.cells = false ∧
    hasOverlap m2.cells = true ∧
    validateMergeConflicts m2.cells ≠ [] := by decide

/-- C2: the claim that `deleteRows` rejects an interior merge cut with
`interior-merge-cut` *and leaves the model completely unchanged* is violated
by the code: on an 8×4 grid with a plain cell `(7,0)` listed before a merged
cell `(2,0)` spanning 5 rows, `deleteRows(4,1)` returns the right error but
the plain cell has already been shifted in place to `r = 6`. -/
theorem C2_code_bug :
    let m : TableModel :=
      ⟨1, ⟨"t", none, none⟩, ⟨8, 4, 0, none⟩,
        [⟨7, 0, "a", some 1, some 1, none, none⟩, ⟨2, 0, "b", some 5, some 1, none, none⟩]⟩
    let res := m.deleteRows 4 1
    res.1 = .err "interior-merge-cut" ∧
    res.2.1.cells =
      [⟨6, 0, "a", some 1, some 1, none, none⟩, ⟨2, 0, "b", some 5, some 1, none, none⟩] ∧
    res.2.1 ≠ m := by decide

/-- C9: the claim that `applyPaste` sets each present cell of any parsed
clipboard matrix, ragged ones included, is violated by the code: for the
clipboard text `"a\tb\nc"` the matrix is ragged, `applyPaste` iterates the
first row's width over every row, accesses the missing `matrix[1][1]` and
throws (`none` in the embedding). -/
theorem C9_code_bug :
    let m : TableModel := ⟨1, ⟨"t", none, none⟩, ⟨1, 1, 0, none⟩, []⟩
    parseClipboardMatrix "a\tb\nc" = [["a", "b"], ["c"]] ∧
    applyPaste m 0 0 [["a", "b"], ["c"]] = none := by decide

/-- C4 counterexample: when no leading cell exists at the top-left of the
merged rectangle, `mergeRange` emits *two* `cell:change`/`value` events for
the leading cell (one from its lazy creation, one from the concatenation),
refuting the claim's "exactly one". -/
theorem C4_counterexample :
    let m : TableModel :=
      ⟨1, ⟨"t", none, none⟩, ⟨1, 2, 0, none⟩, [⟨0, 1, "x", some 1, some 1, none, none⟩]⟩
    let res := mergeRange m 0 0 0 1
    res.1 = .ok ∧
    res.2.2 = [.cellChangeValue 0 0 "" "", .cellChangeValue 0 0 "" "x", .mergeEv 0 0 0 1 1 2] ∧
    (res.2.2.filter (fun e => match e with
      | .cellChangeValue _ _ _ _ => true
      | _ => false)).length = 2 := by decide

/-- C5 counterexample: payloads buffered while paused for the interleaved
emission sequence a,b,a are replayed grouped by event name — a,a,b — not in
their original global emission order, refuting the claim. -/
theorem C5_counterexample :
    let s := busEmitRun (⟨1, []⟩ : BusState Nat) [("a", 1), ("b", 2), ("a", 3)]
    s.2 = [] ∧
    (busResume s.1).2 = [.ev "a" 1, .ev "a" 3, .ev "b" 2, .flush 3] ∧
    (busResume s.1).2 ≠ [.ev "a" 1, .ev "b" 2, .ev "a" 3, .flush 3] := by decide

/-- C7 counterexample: when a mutation leaves `toJSON()` unchanged the second
`record` is skipped by duplicate suppression, and the single `undo` the claim
promises to succeed returns `null` — refuting the claim precisely in the case
it says is included. -/
theorem C7_counterexample :
    let d : Document := ⟨1, ⟨"t", none, none⟩, ⟨1, 1, 0, none⟩, []⟩
    let h := HistoryService.record (HistoryService.record (HistoryService.init 50) d) d
    h.stack = [d] ∧ h.undo.1 = none := by decide

/-- C8 counterexample: a one-row table whose only cell carries `rowspan=2` is
parsed into `rows = 1` with the cell record keeping `rowSpan = 2`, so
`r + rowSpan ≤ rows` fails, refuting the claim for tables whose rowspan
extends past the last row. -/
theorem C8_counterexample :
    ((parseClipboardHtmlTable [[⟨"x", 2, 1⟩]]).map
      (fun p => p.cells.all (fun cell => cell.r + cell.rowSpan ≤ p.rows))) = some false := by
  decide

/-! ## Lemmas about the cell index -/

theorem cellsFind_eq_find_reverse (cells : List Cell) (r c : Nat) :
    cellsFind cells r c = cells.reverse.find? (atCoord r c) := by
  induction cells using List.reverseRecOn with
  | nil => rfl
  | append_singleton xs x ih =>
    rw [List.reverse_append]
    simp only [cellsFind, List.foldl_append, List.foldl_cons, List.foldl_nil,
      List.reverse_cons, List.reverse_nil, List.nil_append, List.singleton_append,
      List.find?_cons]
    cases hb : atCoord r c x
    · simp only [hb, Bool.false_eq_true, if_false, cond_false]
      exact ih
    · simp only [hb, if_true, cond_true]

theorem cellsFind_append (xs ys : List Cell) (r c : Nat) :
    cellsFind (xs ++ ys) r c = (cellsFind ys r c).or (cellsFind xs r c) := by
  simp [cellsFind_eq_find_reverse, List.reverse_append, List.find?_append]

theorem cellsFind_some_coords {cells : List Cell} {r c : Nat} {x : Cell}
    (h : cellsFind cells r c = some x) : x.r = r ∧ x.c = c := by
  rw [cellsFind_eq_find_reverse] at h
  have := List.find?_some h
  simpa [atCoord] using this

theorem cellsFind_mem {cells : List Cell} {r c : Nat} {x : Cell}
    (h : cellsFind cells r c = some x) : x ∈ cells := by
  rw [cellsFind_eq_find_reverse] at h
  have := List.mem_of_find?_eq_some h
  simpa using this

theorem cellsFind_eq_none {cells : List Cell} {r c : Nat}
    (h : ∀ x ∈ cells, ¬(x.r = r ∧ x.c = c)) : cellsFind cells r c = none := by
  rw [cellsFind_eq_find_reverse]
  rw [List.find?_eq_none]
  intro x hx
  simp only [List.mem_reverse] at hx
  simp [atCoord]
  intro hr
  exact fun hc => h x hx ⟨hr, hc⟩

theorem find?_updateFirst_self (p : Cell → Bool) (f : Cell → Cell) (l : List Cell)
    (hf : ∀ x, p x = true → p (f x) = true) :
    (updateFirst p f l).find? p = (l.find? p).map f := by
  induction l with
  | nil => rfl
  | cons x xs ih =>
    by_cases h : p x
    · simp [updateFirst, h, List.find?_cons, hf x h]
    · simp [updateFirst, h, List.find?_cons, ih]

theorem find?_updateFirst_other (p q : Cell → Bool) (f : Cell → Cell) (l : List Cell)
    (hpq : ∀ x, p x = true → q x = false ∧ q (f x) = false) :
    (updateFirst p f l).find? q = l.find? q := by
  induction l with
  | nil => rfl
  | cons x xs ih =>
    by_cases h : p x
    · have h2 := hpq x h
      simp [updateFirst, h, List.find?_cons, h2.1, h2.2]
    · by_cases h3 : q x
      · simp [updateFirst, h, List.find?_cons, h3]
      · simp [updateFirst, h, List.find?_cons, h3, ih]

theorem cellsFind_updateLast_self (cells : List Cell) (r c : Nat) (f : Cell → Cell)
    (hf : ∀ x, atCoord r c x = true → atCoord r c (f x) = true) :
    cellsFind (updateLast cells (atCoord r c) f) r c = (cellsFind cells r c).map f := by
  rw [cellsFind_eq_find_reverse, cellsFind_eq_find_reverse, updateLast,
    List.reverse_reverse]
  exact find?_updateFirst_self (atCoord r c) f cells.reverse hf

theorem cellsFind_updateLast_other (cells : List Cell) (r c r2 c2 : Nat) (f : Cell → Cell)
    (hne : ¬(r2 = r ∧ c2 = c))
    (hf : ∀ x, atCoord r c x = true → atCoord r c (f x) = true) :
    cellsFind (updateLast cells (atCoord r c) f) r2 c2 = cellsFind cells r2 c2 := by
  rw [cellsFind_eq_find_reverse, cellsFind_eq_find_reverse, updateLast,
    List.reverse_reverse]
  refine find?_updateFirst_other (atCoord r c) (atCoord r2 c2) f cells.reverse ?_
  intro x hx
  simp only [atCoord] at hx ⊢
  obtain ⟨hr, hc⟩ := by simpa using hx
  have hfx := hf x hx
  simp only [atCoord] at hfx
  obtain ⟨hr2, hc2⟩ := by simpa using hfx
  constructor
  · simp [hr, hc]
    intro h1
    exact fun h2 => hne ⟨h1 ▸ rfl, h2 ▸ rfl⟩
  · simp [hr2, hc2]
    intro h1
    exact fun h2 => hne ⟨h1 ▸ rfl, h2 ▸ rfl⟩

theorem cellsFind_filter (cells : List Cell) (q : Cell → Bool) (r c : Nat)
    (hq : ∀ x, x.r = r → x.c = c → q x = true) :
    cellsFind (cells.filter q) r c = cellsFind cells r c := by
  rw [cellsFind_eq_find_reverse, cellsFind_eq_find_reverse, ← List.filter_reverse]
  induction cells.reverse with
  | nil => rfl
  | cons x xs ih =>
    by_cases h : q x
    · by_cases h2 : atCoord r c x
      · simp [List.filter_cons, h, List.find?_cons, h2]
      · simp [List.filter_cons, h, List.find?_cons, h2, ih]
    · have h2 : atCoord r c x = false := by
        simp only [atCoord]
        by_contra h3
        simp only [Bool.not_eq_false, Bool.and_eq_true, decide_eq_true_eq] at h3
        exact absurd (hq x h3.1 h3.2) (by simp [h])
      simp [List.filter_cons, h, List.find?_cons, h2, ih]

theorem vmoLoop_ok_iff (minR maxR minC maxC : Nat) (cs : List Cell) :
    vmoLoop minR maxR minC maxC cs = .ok ↔
      ∀ cell ∈ cs, (jsFalsySpan cell.rowSpan && jsFalsySpan cell.colSpan) = true ∨
        (overlapsRectB minR minC maxR maxC cell &&
          !(newContainsB minR minC maxR maxC cell ||
            existingContainsB minR minC maxR maxC cell)) = false := by
  induction cs with
  | nil => simp [vmoLoop]
  | cons x xs ih =>
    unfold vmoLoop
    by_cases h1 : (jsFalsySpan x.rowSpan && jsFalsySpan x.colSpan) = true
    · rw [if_pos h1, ih]
      constructor
      · intro h cell hmem
        rcases List.mem_cons.mp hmem with rfl | hmem2
        · exact Or.inl h1
        · exact h cell hmem2
      · intro h cell hmem
        exact h cell (List.mem_cons_of_mem x hmem)
    · rw [if_neg h1]
      by_cases h2 : (overlapsRectB minR minC maxR maxC x &&
          !(newContainsB minR minC maxR maxC x ||
            existingContainsB minR minC maxR maxC x)) = true
      · rw [if_pos h2]
        constructor
        · intro h
          exact absurd h (by simp)
        · intro h
          rcases h x (List.mem_cons_self x xs) with h3 | h3
          · exact absurd h3 h1
          · rw [h2] at h3
            exact absurd h3 (by simp)
      · rw [if_neg h2, ih]
        constructor
        · intro h cell hmem
          rcases List.mem_cons.mp hmem with rfl | hmem2
          · exact Or.inr (by simpa using h2)
          · exact h cell hmem2
        · intro h cell hmem
          exact h cell (List.mem_cons_of_mem x hmem)

theorem one_le_spanOf (o : Option Nat) : 1 ≤ spanOf o := by
  match o with
  | none => simp [spanOf]
  | some 0 => simp [spanOf]
  | some (n + 1) => simp [spanOf]

/-- A merged cell in the sense of the specification: some span exceeds 1. -/
def mergedCellB (cell : Cell) : Bool :=
  decide (1 < spanOf cell.rowSpan) || decide (1 < spanOf cell.colSpan)

theorem mergedCellB_not_skipped {cell : Cell} (h : mergedCellB cell = true) :
    (jsFalsySpan cell.rowSpan && jsFalsySpan cell.colSpan) = false := by
  simp only [mergedCellB, Bool.or_eq_true, decide_eq_true_eq] at h
  rcases h with h | h
  · have : jsFalsySpan cell.rowSpan = false := by
      cases hrs : cell.rowSpan with
      | none => simp [spanOf, hrs] at h
      | some n =>
        cases n with
        | zero => simp [spanOf, hrs] at h
        | succ k => simp [jsFalsySpan]
    simp [this]
  · have : jsFalsySpan cell.colSpan = false := by
      cases hcs : cell.colSpan with
      | none => simp [spanOf, hcs] at h
      | some n =>
        cases n with
        | zero => simp [spanOf, hcs] at h
        | succ k => simp [jsFalsySpan]
    simp [this]

theorem unit_cell_absorbed {minR maxR minC maxC : Nat} {cell : Cell}
    (h1 : spanOf cell.rowSpan = 1) (h2 : spanOf cell.colSpan = 1)
    (hov : overlapsRectB minR minC maxR maxC cell = true) :
    newContainsB minR minC maxR maxC cell = true := by
  simp only [overlapsRectB, not_or, Bool.not_eq_true', Bool.or_eq_false_iff,
    decide_eq_false_iff_not, Nat.not_lt] at hov
  simp only [newContainsB, Bool.and_eq_true, decide_eq_true_eq]
  omega

/-- C3 helper: every `OpResult` is `ok` or an error with a message. -/
theorem opResult_cases (r : OpResult) : r = .ok ∨ ∃ msg, r = .err msg := by
  cases r with
  | ok => exact Or.inl rfl
  | err m => exact Or.inr ⟨m, rfl⟩

/-- C3: `validateMergeOperation` normalises the rectangle (it is symmetric in
the two corners), rejects out-of-grid rectangles with an error, returns `ok`
only when every existing merged cell intersecting the normalised rectangle is
fully absorbed by it or fully contains it, rejects every other intersection
with an error, and accepts whenever the rectangle is in bounds and every
intersecting merged cell is in one of the two legal positions. -/
theorem C3_validateMergeOperation (m : TableModel) (r1 c1 r2 c2 : Nat) :
    (validateMergeOperation m r1 c1 r2 c2 = validateMergeOperation m r2 c2 r1 c1) ∧
    (m.grid.rows ≤ max r1 r2 ∨ m.grid.cols ≤ max c1 c2 →
      validateMergeOperation m r1 c1 r2 c2 = .err "Диапазон выходит за границы таблицы") ∧
    (validateMergeOperation m r1 c1 r2 c2 = .ok →
      ∀ cell ∈ m.cells, mergedCellB cell = true →
        overlapsRectB (min r1 r2) (min c1 c2) (max r1 r2) (max c1 c2) cell = true →
        (newContainsB (min r1 r2) (min c1 c2) (max r1 r2) (max c1 c2) cell = true ∨
          existingContainsB (min r1 r2) (min c1 c2) (max r1 r2) (max c1 c2) cell = true)) ∧
    ((∃ cell ∈ m.cells, mergedCellB cell = true ∧
        overlapsRectB (min r1 r2) (min c1 c2) (max r1 r2) (max c1 c2) cell = true ∧
        newContainsB (min r1 r2) (min c1 c2) (max r1 r2) (max c1 c2) cell = false ∧
        existingContainsB (min r1 r2) (min c1 c2) (max r1 r2) (max c1 c2) cell = false) →
      ∃ msg, validateMergeOperation m r1 c1 r2 c2 = .err msg) ∧
    (max r1 r2 < m.grid.rows → max c1 c2 < m.grid.cols →
      (∀ cell ∈ m.cells, mergedCellB cell = true →
        overlapsRectB (min r1 r2) (min c1 c2) (max r1 r2) (max c1 c2) cell = true →
        (newContainsB (min r1 r2) (min c1 c2) (max r1 r2) (max c1 c2) cell = true ∨
          existingContainsB (min r1 r2) (min c1 c2) (max r1 r2) (max c1 c2) cell = true)) →
      validateMergeOperation m r1 c1 r2 c2 = .ok) := by
  refine ⟨?_, ?_, ?_, ?_, ?_⟩
  · unfold validateMergeOperation
    rw [Nat.min_comm r2 r1, Nat.max_comm r2 r1, Nat.min_comm c2 c1, Nat.max_comm c2 c1]
  · intro h
    unfold validateMergeOperation
    rw [if_pos h]
  · intro hok cell hmem hmerged hov
    unfold validateMergeOperation at hok
    by_cases hb : m.grid.rows ≤ max r1 r2 ∨ m.grid.cols ≤ max c1 c2
    · rw [if_pos hb] at hok; exact absurd hok (by simp)
    · rw [if_neg hb] at hok
      have := (vmoLoop_ok_iff _ _ _ _ m.cells).mp hok cell hmem
      rcases this with h | h
      · exact absurd h (by simp [mergedCellB_not_skipped hmerged])
      · rw [hov] at h
        simp at h
        by_cases hnc : newContainsB (min r1 r2) (min c1 c2) (max r1 r2) (max c1 c2) cell = true
        · exact Or.inl hnc
        · exact Or.inr (h (by simpa using hnc))
  · rintro ⟨cell, hmem, hmerged, hov, hnc, hec⟩
    rcases opResult_cases (validateMergeOperation m r1 c1 r2 c2) with hok | hkerr
    · exfalso
      unfold validateMergeOperation at hok
      by_cases hb : m.grid.rows ≤ max r1 r2 ∨ m.grid.cols ≤ max c1 c2
      · rw [if_pos hb] at hok; exact absurd hok (by simp)
      · rw [if_neg hb] at hok
        have := (vmoLoop_ok_iff _ _ _ _ m.cells).mp hok cell hmem
        rcases this with h | h
        · exact absurd h (by simp [mergedCellB_not_skipped hmerged])
        · rw [hov, hnc, hec] at h
          simp at h
    · exact hkerr
  · intro hr hc hall
    unfold validateMergeOperation
    rw [if_neg (by omega)]
    refine (vmoLoop_ok_iff _ _ _ _ m.cells).mpr ?_
    intro cell hmem
    by_cases hskip : (jsFalsySpan cell.rowSpan && jsFalsySpan cell.colSpan) = true
    · exact Or.inl hskip
    · right
      by_cases hov : overlapsRectB (min r1 r2) (min c1 c2) (max r1 r2) (max c1 c2) cell = true
      · by_cases hmerged : mergedCellB cell = true
        · rcases hall cell hmem hmerged hov with h | h
          · simp [hov, h]
          · simp [hov, h]
        · have hle1 := one_le_spanOf cell.rowSpan
          have hle2 := one_le_spanOf cell.colSpan
          simp only [mergedCellB, Bool.or_eq_true, decide_eq_true_eq, not_or, not_lt] at hmerged
          have h1 : spanOf cell.rowSpan = 1 := by omega
          have h2 : spanOf cell.colSpan = 1 := by omega
          have := unit_cell_absorbed h1 h2 hov
          simp [hov, this]
      · simp only [Bool.not_eq_true] at hov
        simp [hov]

/-- C3 witness: the theorem applied to a 4×4 model with a 3×3 merge — an
out-of-bounds rectangle is rejected and a free 1×1 rectangle is accepted. -/
theorem C3_witness :
    (validateMergeOperation
        ⟨1, ⟨"t", none, none⟩, ⟨4, 4, 0, none⟩, [⟨0, 0, "", some 3, some 3, none, none⟩]⟩
        0 0 5 5 = .err "Диапазон выходит за границы таблицы") ∧
    (validateMergeOperation
        ⟨1, ⟨"t", none, none⟩, ⟨4, 4, 0, none⟩, [⟨0, 0, "", some 3, some 3, none, none⟩]⟩
        3 3 3 3 = .ok) := by
  constructor
  · exact (C3_validateMergeOperation
      ⟨1, ⟨"t", none, none⟩, ⟨4, 4, 0, none⟩, [⟨0, 0, "", some 3, some 3, none, none⟩]⟩
      0 0 5 5).2.1 (by decide)
  · exact (C3_validateMergeOperation
      ⟨1, ⟨"t", none, none⟩, ⟨4, 4, 0, none⟩, [⟨0, 0, "", some 3, some 3, none, none⟩]⟩
      3 3 3 3).2.2.2.2 (by decide) (by decide) (by decide)

/-- Validity of a `Document` per the schema in the specification (§3): version
1, positive grid, `headerRows` within the grid, well-formed `columnSizes` of
length `cols` when present, cell rectangles inside the grid. -/
def validDocumentB (d : Document) : Bool :=
  d.version = 1 && decide (0 < d.grid.rows) && decide (0 < d.grid.cols) &&
    decide (d.grid.headerRows ≤ d.grid.rows) &&
    (match d.grid.columnSizes with
     | none => true
     | some l => decide (l.length = d.grid.cols) &&
         l.all (fun e => e.u = "px" || e.u = "ratio")) &&
    d.cells.all (fun cell =>
      decide (cell.r + spanOf cell.rowSpan ≤ d.grid.rows) &&
        decide (cell.c + spanOf cell.colSpan ≤ d.grid.cols))

/-- Modelled from the spec: a *trivially empty* cell — "empty value, span 1×1,
no classes and no data". -/
def trivialEmptyCellSpec (c : Cell) : Bool :=
  c.value = "" && spanOf c.rowSpan = 1 && spanOf c.colSpan = 1 &&
    !jsListTruthy c.classes && !jsDataTruthy c.data

theorem headerRowsOf_eq (n : Nat) : headerRowsOf n = n := by
  cases n <;> simp [headerRowsOf]

/-- C6: for a valid version-1 document, `toJSON` after the `TableModel`
constructor reproduces the document exactly, except that cells failing the
serialisation keep-filter are dropped — and every dropped cell is trivially
empty in the specification's sense (empty value, span 1×1, no classes, no
data). -/
theorem C6_toJSON_roundtrip (d : Document) (hv : validDocumentB d = true) :
    (TableModel.ofDoc d).toJSON = { d with cells := d.cells.filter keepCellJson } ∧
    ∀ cell ∈ d.cells, keepCellJson cell = false → trivialEmptyCellSpec cell = true := by
  constructor
  · obtain ⟨ver, meta, ⟨rows, cols, hdr, cszs⟩, cells⟩ := d
    simp only [validDocumentB, Bool.and_eq_true, decide_eq_true_eq] at hv
    obtain ⟨⟨⟨⟨⟨hver, hrows⟩, hcols⟩, hhdr⟩, hsizes⟩, hcells⟩ := hv
    simp only [TableModel.toJSON, TableModel.ofDoc]
    congr 1
    · rw [hver]; rfl
    · congr 1
      · rw [headerRowsOf_eq, headerRowsOf_eq]
      · cases cszs with
        | none => rfl
        | some l =>
          simp only at hsizes
          rw [Bool.and_eq_true] at hsizes
          have hall : l.filter (fun cs => cs.u = "px" || cs.u = "ratio") = l :=
            List.filter_eq_self.mpr (by
              intro a ha
              exact (List.all_eq_true.mp hsizes.2) a ha)
          simp only [normalizeColumnSizes, hall]
          have hne : l ≠ [] := by
            intro h0
            rw [h0] at hsizes
            simp at hsizes
            omega
          simp [List.isEmpty_iff, hne]
  · intro cell _ h
    simp only [keepCellJson, Bool.or_eq_false_iff, Bool.not_eq_true',
      decide_eq_false_iff_not, not_not, ne_eq, Decidable.not_not] at h
    obtain ⟨⟨⟨⟨hrs, hcs⟩, hval⟩, hcl⟩, hdt⟩ := h
    simp [trivialEmptyCellSpec, hrs, hcs, hval, hcl, hdt, spanOf]

/-- C6 witness: round trip of a concrete valid document with meta, header
rows, column sizes, a non-trivial cell and one trivially empty cell, which is
the only thing that disappears. -/
theorem C6_witness :
    (TableModel.ofDoc
        ⟨1, ⟨"demo", some "2024-01-01", none⟩,
          ⟨2, 2, 1, some [⟨120, "px"⟩, ⟨1, "ratio"⟩]⟩,
          [⟨0, 0, "v", some 1, some 2, some ["b"], none⟩,
            ⟨1, 1, "", some 1, some 1, none, none⟩]⟩).toJSON =
      ⟨1, ⟨"demo", some "2024-01-01", none⟩,
        ⟨2, 2, 1, some [⟨120, "px"⟩, ⟨1, "ratio"⟩]⟩,
        [⟨0, 0, "v", some 1, some 2, some ["b"], none⟩]⟩ := by
  have h := C6_toJSON_roundtrip
    ⟨1, ⟨"demo", some "2024-01-01", none⟩,
      ⟨2, 2, 1, some [⟨120, "px"⟩, ⟨1, "ratio"⟩]⟩,
      [⟨0, 0, "v", some 1, some 2, some ["b"], none⟩,
        ⟨1, 1, "", some 1, some 1, none, none⟩]⟩ (by decide)
  rw [h.1]
  decide

/-! ## HistoryService lemmas -/

theorem stackAt_last {α} (s : List α) : stackAt s ((s.length : Int) - 1) = s.getLast? := by
  cases s with
  | nil => simp [stackAt]
  | cons x xs =>
    rw [stackAt, if_neg (by simp)]
    have htn : ((((x :: xs).length : Nat) : Int) - 1).toNat = (x :: xs).length - 1 := by
      omega
    rw [htn, List.get?_eq_getElem?, ← List.getLast?_eq_getElem?]

theorem record_push {α} [DecidableEq α] (L : Nat) (s : List α) (d : α)
    (hdup : s.getLast? ≠ some d) (hlen : s.length + 1 ≤ L) :
    HistoryService.record ⟨L, s, (s.length : Int) - 1, false⟩ d =
      ⟨L, s ++ [d], (s.length : Int), false⟩ := by
  unfold HistoryService.record
  dsimp only
  rw [stackAt_last]
  have h1 : ¬(((s.length : Nat) : Int) - 1 < ((s.length : Nat) : Int) - 1) := by omega
  have h2 : ¬(L < (s ++ [d]).length) := by
    simp only [List.length_append, List.length_singleton]
    omega
  rw [if_neg hdup, if_neg h1, if_neg h2, if_neg (Bool.false_ne_true)]
  congr 1
  omega

theorem recordRun_grow {α} [DecidableEq α] (L : Nat) :
    ∀ (ds s : List α),
      s.length + ds.length ≤ L →
      List.Chain' (· ≠ ·) (s ++ ds) →
      HistoryService.recordRun ⟨L, s, (s.length : Int) - 1, false⟩ ds =
        ⟨L, s ++ ds, ((s ++ ds).length : Int) - 1, false⟩
  | [], s, _, _ => by simp [HistoryService.recordRun]
  | d :: rest, s, hlen, hchain => by
    have hdup : s.getLast? ≠ some d := by
      obtain ⟨_, _, hlink⟩ := List.chain'_append.mp hchain
      intro heq
      exact hlink d heq d rfl rfl
    have hrec := record_push L s d hdup (by simp only [List.length_cons] at hlen; omega)
    rw [HistoryService.recordRun, List.foldl_cons, hrec]
    have hstep : (⟨L, s ++ [d], (s.length : Int), false⟩ : HistoryService α) =
        ⟨L, s ++ [d], (((s ++ [d]).length : Nat) : Int) - 1, false⟩ := by
      congr 1
      simp only [List.length_append, List.length_singleton]
      omega
    rw [hstep]
    have IH : List.foldl HistoryService.record (⟨L, s ++ [d],
        (((s ++ [d]).length : Nat) : Int) - 1, false⟩ : HistoryService α) rest =
        ⟨L, s ++ [d] ++ rest, (((s ++ [d] ++ rest).length : Nat) : Int) - 1, false⟩ :=
      recordRun_grow L rest (s ++ [d])
        (by
          simp only [List.length_append, List.length_singleton, List.length_cons,
            List.length_nil] at hlen ⊢
          omega)
        (by rw [List.append_assoc, List.singleton_append]; exact hchain)
    rw [IH, List.append_assoc, List.singleton_append]

theorem undoRun_all {α} (L : Nat) (b : Bool) :
    ∀ (n : Nat) (s : List α), n < s.length →
      HistoryService.undoRun (⟨L, s, (n : Int), b⟩ : HistoryService α) n =
        (((s.take n).reverse).map some, ⟨L, s, 0, b⟩)
  | 0, s, _ => by simp [HistoryService.undoRun]
  | n + 1, s, h => by
    rw [HistoryService.undoRun]
    have hcan : HistoryService.canUndo (⟨L, s, ((n + 1 : Nat) : Int), b⟩ : HistoryService α) =
        true := by
      simp only [HistoryService.canUndo, decide_eq_true_eq]
      omega
    rw [HistoryService.undo, if_pos hcan]
    dsimp only
    have hidx : (((n + 1 : Nat) : Int) - 1) = (n : Int) := by omega
    rw [hidx]
    have hget : HistoryService.getCurrent (⟨L, s, (n : Int), b⟩ : HistoryService α) =
        some s[n] := by
      have hn : n < s.length := by omega
      simp only [HistoryService.getCurrent, stackAt]
      rw [if_neg (by omega)]
      have : ((n : Int)).toNat = n := by omega
      rw [this, List.get?_eq_getElem?, List.getElem?_eq_getElem hn]
    have IH := undoRun_all L b n s (by omega)
    rw [IH, hget]
    have hn : n < s.length := by omega
    have htake : s.take (n + 1) = s.take n ++ [s[n]] := by
      rw [List.take_succ, List.getElem?_eq_getElem hn]
      rfl
    rw [htake, List.reverse_append, List.reverse_singleton, List.singleton_append,
      List.map_cons]

/-- C7 (amended): if consecutive snapshots are pairwise distinct (no
duplicate suppression fires) and `n + 1` does not exceed the history limit,
then after recording the initial snapshot and the `n` mutation snapshots the
stack is exactly the snapshot sequence, `undo` succeeds at each of the `n`
steps, and the last `undo` returns the initial snapshot. -/
theorem C7_amended {α} [DecidableEq α] (L : Nat) (d0 : α) (ds : List α)
    (hchain : List.Chain' (· ≠ ·) (d0 :: ds)) (hlen : ds.length + 1 ≤ L) :
    HistoryService.recordRun (HistoryService.record (HistoryService.init L) d0) ds =
      ⟨L, d0 :: ds, (ds.length : Int), false⟩ ∧
    (HistoryService.undoRun
        (⟨L, d0 :: ds, (ds.length : Int), false⟩ : HistoryService α) ds.length).1 =
      (((d0 :: ds).take ds.length).reverse).map some ∧
    (∀ r ∈ (HistoryService.undoRun
        (⟨L, d0 :: ds, (ds.length : Int), false⟩ : HistoryService α) ds.length).1,
      r.isSome = true) ∧
    (0 < ds.length →
      ((HistoryService.undoRun
          (⟨L, d0 :: ds, (ds.length : Int), false⟩ : HistoryService α) ds.length).1).getLast? =
        some (some d0)) := by
  have hinit : (HistoryService.init L : HistoryService α) =
      ⟨L, [], (([] : List α).length : Int) - 1, false⟩ := by
    simp [HistoryService.init]
  have hrun := recordRun_grow L (d0 :: ds) ([] : List α)
    (by simp only [List.length_nil, List.length_cons]; omega)
    (by simpa using hchain)
  rw [List.nil_append] at hrun
  have hix : (((d0 :: ds).length : Nat) : Int) - 1 = ((ds.length : Nat) : Int) := by
    simp only [List.length_cons]
    omega
  rw [hix] at hrun
  have hcomp : HistoryService.recordRun
      (HistoryService.record (HistoryService.init L) d0) ds =
      ⟨L, d0 :: ds, (ds.length : Int), false⟩ := by
    rw [hinit]
    rw [HistoryService.recordRun] at hrun ⊢
    rw [List.foldl_cons] at hrun
    exact hrun
  have hundo := undoRun_all L false ds.length (d0 :: ds)
    (by simp only [List.length_cons]; omega)
  refine ⟨hcomp, ?_, ?_, ?_⟩
  · rw [hundo]
  · intro r hr
    rw [hundo] at hr
    simp only [List.mem_map] at hr
    obtain ⟨x, _, rfl⟩ := hr
    rfl
  · intro hpos
    rw [hundo]
    cases ds with
    | nil => exact absurd hpos (by simp)
    | cons e es =>
      rw [List.length_cons, List.take_succ_cons, List.reverse_cons, List.map_append]
      simp

/-- C7 witness: three distinct snapshots recorded under limit 50; both undos
succeed and the second returns the initial snapshot. -/
theorem C7_witness :
    HistoryService.recordRun
        (HistoryService.record (HistoryService.init (α := Nat) 50) 7) [8, 9] =
      ⟨50, [7, 8, 9], (2 : Int), false⟩ ∧
    (HistoryService.undoRun (⟨50, [7, 8, 9], (2 : Int), false⟩ : HistoryService Nat) 2).1 =
      [some 8, some 7] ∧
    ((HistoryService.undoRun
        (⟨50, [7, 8, 9], (2 : Int), false⟩ : HistoryService Nat) 2).1).getLast? =
      some (some 7) := by
  have h := C7_amended 50 7 [8, 9] (by simp [List.chain'_cons]) (by decide)
  exact ⟨h.1, h.2.1.trans (by decide), h.2.2.2 (by decide)⟩

/-! ## EventBus lemmas -/

/-- Payloads delivered for event name `n`, in order. -/
def evPayloadsOf (n : String) (outs : List (BusOut α)) : List α :=
  outs.filterMap (fun o =>
    match o with
    | .ev n2 p => if n2 = n then some p else none
    | .flush _ => none)

/-- Payloads buffered while paused for event name `n`, in emission order. -/
def filterPayloads (n : String) (es : List (String × α)) : List α :=
  (es.filter (fun e => e.1 = n)).map (fun e => e.2)

/-- The group of name `n` in the buffer (concatenated if the name repeated,
which never happens: keys are unique). -/
def grpPayloads (n : String) (buf : List (String × List α)) : List α :=
  (buf.filter (fun g => g.1 = n)).flatMap (fun g => g.2)

/-- Buffer keys are pairwise distinct. -/
def keysNodup (buf : List (String × List α)) : Prop := (buf.map (fun g => g.1)).Nodup

theorem bufAdd_key_mem (buf : List (String × List α)) (name : String) (p : α) :
    ∀ q ∈ bufAdd buf name p, q.1 = name ∨ q.1 ∈ buf.map (fun g => g.1) := by
  induction buf with
  | nil =>
    intro q hq
    simp only [bufAdd, List.mem_singleton] at hq
    subst hq
    simp
  | cons g2 r2 ih =>
    intro q hq
    by_cases hg2 : g2.1 = name
    · rw [bufAdd, if_pos hg2] at hq
      rcases List.mem_cons.mp hq with rfl | hq2
      · exact Or.inl hg2
      · exact Or.inr (List.mem_cons_of_mem _ (List.mem_map_of_mem _ hq2))
    · rw [bufAdd, if_neg hg2] at hq
      rcases List.mem_cons.mp hq with rfl | hq2
      · exact Or.inr (by simp)
      · rcases ih q hq2 with h4 | h4
        · exact Or.inl h4
        · exact Or.inr (List.mem_cons_of_mem _ h4)

theorem keysNodup_bufAdd (buf : List (String × List α)) (name : String) (p : α)
    (h : keysNodup buf) : keysNodup (bufAdd buf name p) := by
  induction buf with
  | nil => simp [bufAdd, keysNodup]
  | cons g rest ih =>
    simp only [keysNodup, List.map_cons, List.nodup_cons] at h
    by_cases hg : g.1 = name
    · simpa [bufAdd, hg, keysNodup] using h
    · have ih2 := ih h.2
      simp only [bufAdd, hg, if_false, keysNodup, List.map_cons, List.nodup_cons]
      refine ⟨?_, ih2⟩
      intro hmem
      rcases List.mem_map.mp hmem with ⟨q, hq, hq2⟩
      rcases bufAdd_key_mem rest name p q hq with h5 | h5
      · exact hg (hq2 ▸ h5)
      · exact h.1 (hq2 ▸ h5)

theorem grpPayloads_not_mem (n : String) (buf : List (String × List α))
    (h : n ∉ buf.map (fun g => g.1)) : grpPayloads n buf = [] := by
  unfold grpPayloads
  have : buf.filter (fun g => g.1 = n) = [] := by
    rw [List.filter_eq_nil_iff]
    intro g hg
    simp only [decide_eq_true_eq]
    intro heq
    exact h (heq ▸ List.mem_map_of_mem _ hg)
  rw [this]
  rfl

theorem grpPayloads_cons (n : String) (g : String × List α)
    (rest : List (String × List α)) :
    grpPayloads n (g :: rest) = (if g.1 = n then g.2 else []) ++ grpPayloads n rest := by
  by_cases hg : g.1 = n
  · simp [grpPayloads, List.filter_cons, hg]
  · simp [grpPayloads, List.filter_cons, hg]

theorem grpPayloads_bufAdd (n : String) (buf : List (String × List α)) (name : String)
    (p : α) (h : keysNodup buf) :
    grpPayloads n (bufAdd buf name p) =
      grpPayloads n buf ++ (if name = n then [p] else []) := by
  induction buf with
  | nil =>
    by_cases hn : name = n <;> simp [bufAdd, grpPayloads_cons, grpPayloads, hn]
  | cons g rest ih =>
    simp only [keysNodup, List.map_cons, List.nodup_cons] at h
    by_cases hg : g.1 = name
    · rw [bufAdd, if_pos hg, grpPayloads_cons, grpPayloads_cons]
      by_cases hn : name = n
      · have hrest : grpPayloads n rest = [] :=
          grpPayloads_not_mem n rest (by rw [← hn, ← hg]; exact h.1)
        rw [hrest]
        simp [hg, hn]
      · simp [hg, hn]
    · rw [bufAdd, if_neg hg, grpPayloads_cons, grpPayloads_cons, ih h.2]
      by_cases hgn : g.1 = n
      · simp [hgn, List.append_assoc]
      · simp [hgn]

/-- One step of buffering, as folded over an emission sequence. -/
def bufAddStep (buf : List (String × List α)) (e : String × α) : List (String × List α) :=
  bufAdd buf e.1 e.2

theorem keysNodup_foldl (es : List (String × α)) :
    ∀ buf : List (String × List α), keysNodup buf → keysNodup (es.foldl bufAddStep buf)
  | buf, h => by
    induction es generalizing buf with
    | nil => exact h
    | cons e rest ih =>
      rw [List.foldl_cons]
      exact ih (bufAddStep buf e) (keysNodup_bufAdd buf e.1 e.2 h)

theorem grpPayloads_foldl (n : String) (es : List (String × α)) :
    ∀ buf : List (String × List α), keysNodup buf →
      grpPayloads n (es.foldl bufAddStep buf) = grpPayloads n buf ++ filterPayloads n es := by
  induction es with
  | nil => intro buf _; simp [filterPayloads]
  | cons e rest ih =>
    intro buf h
    rw [List.foldl_cons]
    rw [ih (bufAddStep buf e) (keysNodup_bufAdd buf e.1 e.2 h)]
    rw [show bufAddStep buf e = bufAdd buf e.1 e.2 from rfl]
    rw [grpPayloads_bufAdd n buf e.1 e.2 h]
    by_cases he : e.1 = n
    · simp [filterPayloads, List.filter_cons, he, List.append_assoc]
    · simp [filterPayloads, List.filter_cons, he]

theorem bufTotal_bufAdd (buf : List (String × List α)) (name : String) (p : α) :
    bufTotal (bufAdd buf name p) = bufTotal buf + 1 := by
  induction buf with
  | nil => simp [bufAdd, bufTotal]
  | cons g rest ih =>
    by_cases hg : g.1 = name
    · simp [bufAdd, hg, bufTotal]
      omega
    · simp only [bufAdd, hg, if_false, bufTotal, List.map_cons, List.sum_cons]
      simp only [bufTotal] at ih
      omega

theorem bufTotal_foldl (es : List (String × α)) :
    ∀ buf : List (String × List α),
      bufTotal (es.foldl bufAddStep buf) = bufTotal buf + es.length := by
  induction es with
  | nil => intro buf; simp
  | cons e rest ih =>
    intro buf
    rw [List.foldl_cons, ih (bufAddStep buf e),
      show bufAddStep buf e = bufAdd buf e.1 e.2 from rfl, bufTotal_bufAdd]
    simp only [List.length_cons]
    omega

theorem evPayloadsOf_flushOuts (n : String) (buf : List (String × List α)) :
    evPayloadsOf n (flushOuts buf) = grpPayloads n buf := by
  induction buf with
  | nil => rfl
  | cons g rest ih =>
    rw [flushOuts, List.flatMap_cons, show rest.flatMap (fun g => g.2.map (BusOut.ev g.1)) =
      flushOuts rest from rfl]
    rw [evPayloadsOf, List.filterMap_append, grpPayloads_cons]
    rw [show List.filterMap _ (flushOuts rest) = evPayloadsOf n (flushOuts rest) from rfl, ih]
    congr 1
    rw [List.filterMap_map]
    by_cases hg : g.1 = n
    · simp only [Function.comp_def, hg, if_pos rfl, if_pos trivial]
      simp [List.filterMap_some]
    · simp [Function.comp_def, hg]

theorem flushOuts_all_ev (buf : List (String × List α)) :
    ∀ o ∈ flushOuts buf, ∃ n2 p2, o = BusOut.ev n2 p2 := by
  intro o ho
  simp only [flushOuts, List.mem_flatMap, List.mem_map] at ho
  obtain ⟨g, _, p2, _, rfl⟩ := ho
  exact ⟨g.1, p2, rfl⟩

theorem flushOuts_ev_count (buf : List (String × List α)) :
    (flushOuts buf).length = bufTotal buf := by
  induction buf with
  | nil => rfl
  | cons g rest ih =>
    rw [flushOuts, List.flatMap_cons, List.length_append, List.length_map,
      show rest.flatMap (fun g => g.2.map (BusOut.ev g.1)) = flushOuts rest from rfl, ih]
    simp [bufTotal]

theorem busEmitRun_paused (es : List (String × α)) :
    ∀ buf : List (String × List α),
      busEmitRun ⟨1, buf⟩ es = (⟨1, es.foldl bufAddStep buf⟩, []) := by
  induction es with
  | nil => intro buf; rfl
  | cons e rest ih =>
    intro buf
    rw [busEmitRun]
    rw [show busEmit (⟨1, buf⟩ : BusState α) e.1 e.2 =
      (⟨1, bufAdd buf e.1 e.2⟩, []) from by rw [busEmit, if_pos (by exact Nat.one_pos)]]
    rw [List.foldl_cons, ih (bufAdd buf e.1 e.2)]
    rfl

/-- C5 (amended): for any sequence of emits while the bus is paused at depth
1, nothing is delivered immediately; the `resume` back to depth 0 delivers,
for every event name, exactly that name's payloads in their original FIFO
order, delivers only ordinary events before the final entry, and ends with a
single `batch:flush` whose `bufferedEventCount` is the total number of
buffered payloads. -/
theorem C5_amended (es : List (String × α)) :
    (busEmitRun (⟨1, []⟩ : BusState α) es).2 = [] ∧
    (busResume (busEmitRun (⟨1, []⟩ : BusState α) es).1).1.pauseDepth = 0 ∧
    (∀ n, evPayloadsOf n (busResume (busEmitRun (⟨1, []⟩ : BusState α) es).1).2 =
      filterPayloads n es) ∧
    (busResume (busEmitRun (⟨1, []⟩ : BusState α) es).1).2.getLast? =
      some (.flush es.length) ∧
    (∀ o ∈ (busResume (busEmitRun (⟨1, []⟩ : BusState α) es).1).2.dropLast,
      ∃ n2 p2, o = BusOut.ev n2 p2) ∧
    ((busResume (busEmitRun (⟨1, []⟩ : BusState α) es).1).2.dropLast).length = es.length := by
  have hrun := busEmitRun_paused es ([] : List (String × List α))
  have hres : busResume (⟨1, es.foldl bufAddStep []⟩ : BusState α) =
      (⟨0, []⟩, flushOuts (es.foldl bufAddStep []) ++
        [.flush (bufTotal (es.foldl bufAddStep []))]) := by
    rw [busResume, if_neg (by exact Nat.one_ne_zero), if_pos rfl]
  have hnd : keysNodup ([] : List (String × List α)) := by simp [keysNodup]
  have htot : bufTotal (es.foldl bufAddStep ([] : List (String × List α))) = es.length := by
    rw [bufTotal_foldl es ([] : List (String × List α))]
    simp [bufTotal]
  rw [hrun]
  dsimp only
  rw [hres]
  dsimp only
  refine ⟨rfl, rfl, ?_, ?_, ?_, ?_⟩
  · intro n
    rw [show evPayloadsOf n (flushOuts (es.foldl bufAddStep []) ++
        [BusOut.flush (bufTotal (es.foldl bufAddStep []))]) =
      evPayloadsOf n (flushOuts (es.foldl bufAddStep [])) ++
      evPayloadsOf n [BusOut.flush (bufTotal (es.foldl bufAddStep []))] from
      List.filterMap_append _ _ _]
    rw [evPayloadsOf_flushOuts, grpPayloads_foldl n es [] hnd]
    simp [evPayloadsOf, grpPayloads]
  · rw [List.getLast?_concat, htot]
  · rw [List.dropLast_concat]
    exact flushOuts_all_ev (es.foldl bufAddStep [])
  · rw [List.dropLast_concat, flushOuts_ev_count, htot]

/-! ## HTML parser lemmas -/

theorem skipOcc_ge (occ : List (Nat × Nat)) (r : Nat) :
    ∀ fuel c, c ≤ skipOcc occ r fuel c
  | 0, c => le_refl c
  | fuel + 1, c => by
    rw [skipOcc]
    by_cases h : (r, c) ∈ occ
    · rw [if_pos h]
      have := skipOcc_ge occ r fuel (c + 1)
      omega
    · rw [if_neg h]

theorem procCells_spec (r : Nat) :
    ∀ (row : List HtmlCellIn) (occ : List (Nat × Nat)) (cIndex : Nat),
      cIndex ≤ (procCells occ r cIndex row).2.1 ∧
      ∀ rec ∈ (procCells occ r cIndex row).2.2,
        rec.r = r ∧ rec.c + rec.colSpan ≤ (procCells occ r cIndex row).2.1 ∧
        ∃ inp ∈ row, rec.rowSpan = spanAttr inp.rowSpan
  | [], occ, cIndex => by simp [procCells]
  | cell :: rest, occ, cIndex => by
    rw [procCells]
    have hskip := skipOcc_ge occ r (occ.length + 1) cIndex
    obtain ⟨ih1, ih2⟩ := procCells_spec r rest
      (markRect occ r (skipOcc occ r (occ.length + 1) cIndex)
        (spanAttr cell.rowSpan) (spanAttr cell.colSpan))
      (skipOcc occ r (occ.length + 1) cIndex + spanAttr cell.colSpan)
    refine ⟨by dsimp only; omega, ?_⟩
    intro rec hrec
    dsimp only at hrec ⊢
    rcases List.mem_cons.mp hrec with rfl | hrec2
    · exact ⟨rfl, by dsimp only; omega, cell, List.mem_cons_self cell rest, rfl⟩
    · obtain ⟨h1, h2, inp, hinp, h3⟩ := ih2 rec hrec2
      exact ⟨h1, h2, inp, List.mem_cons_of_mem cell hinp, h3⟩

theorem procRows_spec :
    ∀ (rowsL : List (List HtmlCellIn)) (occ : List (Nat × Nat)) (r maxCols : Nat),
      maxCols ≤ (procRows occ r maxCols rowsL).1 ∧
      ∀ rec ∈ (procRows occ r maxCols rowsL).2,
        rec.c + rec.colSpan ≤ (procRows occ r maxCols rowsL).1 ∧
        ∃ i, i < rowsL.length ∧ rec.r = r + i ∧
          ∃ inp ∈ rowsL.getD i [], rec.rowSpan = spanAttr inp.rowSpan
  | [], occ, r, maxCols => by simp [procRows]
  | row :: rest, occ, r, maxCols => by
    rw [procRows]
    obtain ⟨hC1, hC2⟩ := procCells_spec r row occ (skipOcc occ r (occ.length + 1) 0)
    set step := procCells occ r (skipOcc occ r (occ.length + 1) 0) row with hstep
    set maxCols2 := if maxCols < step.2.1 then step.2.1 else maxCols with hmax2
    obtain ⟨ihr1, ihr2⟩ := procRows_spec rest step.1 (r + 1) maxCols2
    have hm1 : maxCols ≤ maxCols2 := by
      rw [hmax2]
      split <;> omega
    have hm2 : step.2.1 ≤ maxCols2 := by
      rw [hmax2]
      split <;> omega
    refine ⟨by dsimp only; omega, ?_⟩
    intro rec hrec
    dsimp only at hrec ⊢
    rcases List.mem_append.mp hrec with hrec2 | hrec2
    · obtain ⟨h1, h2, inp, hinp, h3⟩ := hC2 rec hrec2
      refine ⟨by omega, 0, by simp, by omega, inp, by simpa using hinp, h3⟩
    · obtain ⟨h1, i, hi, hr2, inp, hinp, h3⟩ := ihr2 rec hrec2
      refine ⟨h1, i + 1, by simp; omega, by omega, inp, by simpa using hinp, h3⟩

/-- C8 (amended): every parsed cell record satisfies `c + colSpan ≤ cols`
and `r < rows`; and `r + rowSpan ≤ rows` holds provided no cell's rowspan
attribute extends past the last row. -/
theorem C8_amended (rows : List (List HtmlCellIn)) (p : ParsedTable)
    (hp : parseClipboardHtmlTable rows = some p) :
    (∀ cell ∈ p.cells, cell.c + cell.colSpan ≤ p.cols) ∧
    (∀ cell ∈ p.cells, cell.r < p.rows) ∧
    ((∀ i, i < rows.length → ∀ inp ∈ rows.getD i [],
        i + spanAttr inp.rowSpan ≤ rows.length) →
      ∀ cell ∈ p.cells, cell.r + cell.rowSpan ≤ p.rows) := by
  unfold parseClipboardHtmlTable at hp
  by_cases hne : rows.isEmpty
  · rw [if_pos hne] at hp
    cases hp
  · rw [if_neg hne] at hp
    have hpe : p = ⟨rows.length, (procRows [] 0 0 rows).1, (procRows [] 0 0 rows).2⟩ :=
      (Option.some_injective _ hp).symm
    subst hpe
    obtain ⟨hmax, hall⟩ := procRows_spec rows [] 0 0
    refine ⟨?_, ?_, ?_⟩
    · intro cell hc
      exact (hall cell hc).1
    · intro cell hc
      obtain ⟨i, hi, hr, _⟩ := (hall cell hc).2
      dsimp only at hr ⊢
      omega
    · intro hin cell hc
      obtain ⟨i, hi, hr, inp, hinp, hrs⟩ := (hall cell hc).2
      have := hin i hi inp hinp
      dsimp only
      omega

/-- C8 witness: a concrete two-row table (with a trimmed value and a 2-wide
colspan) parses successfully and satisfies both span bounds. -/
theorem C8_witness :
    parseClipboardHtmlTable [[⟨" a ", 1, 2⟩], [⟨"b", 1, 1⟩]] =
      some ⟨2, 2, [⟨0, 0, "a", 1, 2⟩, ⟨1, 0, "b", 1, 1⟩]⟩ ∧
    (∀ cell ∈ (⟨2, 2, [⟨0, 0, "a", 1, 2⟩, ⟨1, 0, "b", 1, 1⟩]⟩ : ParsedTable).cells,
      cell.c + cell.colSpan ≤ 2) ∧
    (∀ cell ∈ (⟨2, 2, [⟨0, 0, "a", 1, 2⟩, ⟨1, 0, "b", 1, 1⟩]⟩ : ParsedTable).cells,
      cell.r + cell.rowSpan ≤ 2) := by
  have h := C8_amended [[⟨" a ", 1, 2⟩], [⟨"b", 1, 1⟩]]
    ⟨2, 2, [⟨0, 0, "a", 1, 2⟩, ⟨1, 0, "b", 1, 1⟩]⟩ (by decide)
  exact ⟨by decide, h.1, h.2.2 (by decide)⟩

/-! ## Rectangle coordinate lemmas -/

/-- The empty `1×1` cell that `setCellValue` creates lazily. -/
def emptyCellAt (p : Nat × Nat) : Cell := ⟨p.1, p.2, "", some 1, some 1, none, none⟩

theorem mem_rectCoords (r c rs cs : Nat) (p : Nat × Nat) :
    p ∈ rectCoords r c rs cs ↔ r ≤ p.1 ∧ p.1 < r + rs ∧ c ≤ p.2 ∧ p.2 < c + cs := by
  constructor
  · intro h
    simp only [rectCoords, List.mem_map] at h
    obtain ⟨⟨a, b⟩, hq, rfl⟩ := h
    rw [List.pair_mem_product] at hq
    simp only [List.mem_range] at hq
    simp only
    omega
  · intro h
    simp only [rectCoords, List.mem_map]
    refine ⟨(p.1 - r, p.2 - c), ?_, ?_⟩
    · rw [List.pair_mem_product]
      simp only [List.mem_range]
      omega
    · have h1 : r + (p.1 - r) = p.1 := by omega
      have h2 : c + (p.2 - c) = p.2 := by omega
      simp [h1, h2]

theorem rectCoords_nodup (r c rs cs : Nat) : (rectCoords r c rs cs).Nodup := by
  refine List.Nodup.map ?_ (List.Nodup.product (List.nodup_range rs) (List.nodup_range cs))
  intro q1 q2 h
  simp only [Prod.mk.injEq] at h
  ext
  · omega
  · omega

/-! ## setCellValue state lemmas -/

theorem setCellValue_cells_none {m : TableModel} {r c : Nat} (v : String)
    (h : m.getCell r c = none) :
    (m.setCellValue r c v).1 =
      { m with cells := m.cells ++ [⟨r, c, v, some 1, some 1, none, none⟩] } := by
  simp [TableModel.setCellValue, h]

theorem setCellValue_frame (m : TableModel) (r c : Nat) (v : String) :
    (m.setCellValue r c v).1.grid = m.grid ∧ (m.setCellValue r c v).1.meta = m.meta ∧
      (m.setCellValue r c v).1.version = m.version := by
  cases h : m.getCell r c <;> simp [TableModel.setCellValue, h]

/-! ## splitFill batch characterisation -/

/-- The survivor predicate of the fill loop: a coordinate gets a fresh empty
cell iff it is not the leading coordinate and holds no cell yet. -/
def needsFill (cells : List Cell) (r c : Nat) (p : Nat × Nat) : Bool :=
  !(decide (p.1 = r) && decide (p.2 = c)) && (cellsFind cells p.1 p.2).isNone

theorem splitFill_cells (r c : Nat) :
    ∀ (coords : List (Nat × Nat)) (m : TableModel) (evs : List Event),
      coords.Nodup →
      (splitFill (m, evs) coords r c).1.cells =
        m.cells ++ (coords.filter (needsFill m.cells r c)).map emptyCellAt
  | [], m, evs, _ => by simp [splitFill]
  | q :: rest, m, evs, hnd => by
    have hnd2 := (List.nodup_cons.mp hnd).2
    have hqmem := (List.nodup_cons.mp hnd).1
    rw [splitFill, List.foldl_cons]
    dsimp only
    by_cases hq : q.1 = r ∧ q.2 = c
    · rw [if_pos hq]
      have hpred : needsFill m.cells r c q = false := by
        simp [needsFill, hq.1, hq.2]
      rw [List.filter_cons, hpred]
      simp only [Bool.false_eq_true, if_false]
      exact splitFill_cells r c rest m evs hnd2
    · rw [if_neg hq]
      cases hfind : m.getCell q.1 q.2 with
      | some x =>
        dsimp only
        have hpred : needsFill m.cells r c q = false := by
          simp only [needsFill, TableModel.getCell] at hfind ⊢
          simp [hfind]
        rw [List.filter_cons, hpred]
        simp only [Bool.false_eq_true, if_false]
        exact splitFill_cells r c rest m evs hnd2
      | none =>
        dsimp only
        have hm2 := setCellValue_cells_none "" hfind
        have hpred : needsFill m.cells r c q = true := by
          simp only [needsFill, TableModel.getCell] at hfind ⊢
          simp only [hfind, Option.isNone_none, Bool.and_true]
          simp only [not_and] at hq
          by_cases h1 : q.1 = r
          · have h2 := hq h1
            simp [h1, h2]
          · simp [h1]
        rw [List.filter_cons, hpred, if_pos rfl, List.map_cons]
        have ih := splitFill_cells r c rest (m.setCellValue q.1 q.2 "").1
          (evs ++ (m.setCellValue q.1 q.2 "").2) hnd2
        rw [hm2] at ih
        dsimp only at ih
        have hfilter : rest.filter (needsFill
            (m.cells ++ [⟨q.1, q.2, "", some 1, some 1, none, none⟩]) r c) =
            rest.filter (needsFill m.cells r c) := by
          refine List.filter_congr ?_
          intro p hp
          have hpq : ¬(p.1 = q.1 ∧ p.2 = q.2) := by
            intro hc2
            apply hqmem
            have hpq2 : p = q := Prod.ext hc2.1 hc2.2
            exact hpq2 ▸ hp
          simp only [needsFill]
          congr 1
          rw [cellsFind_append]
          have hone : cellsFind [⟨q.1, q.2, "", some 1, some 1, none, none⟩] p.1 p.2 =
              none := by
            refine cellsFind_eq_none ?_
            intro y hy
            simp only [List.mem_singleton] at hy
            subst hy
            intro hcc
            exact hpq ⟨hcc.1.symm, hcc.2.symm⟩
          rw [hone]
          rfl
        rw [hfilter] at ih
        rw [List.append_assoc, List.singleton_append] at ih
        rw [show (m.setCellValue q.1 q.2 "").1 =
          { m with cells := m.cells ++ [⟨q.1, q.2, "", some 1, some 1, none, none⟩] }
          from hm2]
        exact ih

theorem splitFill_frame (r c : Nat) :
    ∀ (coords : List (Nat × Nat)) (m : TableModel) (evs : List Event),
      (splitFill (m, evs) coords r c).1.grid = m.grid ∧
      (splitFill (m, evs) coords r c).1.meta = m.meta ∧
      (splitFill (m, evs) coords r c).1.version = m.version
  | [], m, evs => by simp [splitFill]
  | q :: rest, m, evs => by
    rw [splitFill, List.foldl_cons]
    dsimp only
    by_cases hq : q.1 = r ∧ q.2 = c
    · rw [if_pos hq]
      exact splitFill_frame r c rest m evs
    · rw [if_neg hq]
      cases hfind : m.getCell q.1 q.2 with
      | some x =>
        dsimp only
        exact splitFill_frame r c rest m evs
      | none =>
        dsimp only
        have h2 := setCellValue_frame m q.1 q.2 ""
        have h3 := splitFill_frame r c rest (m.setCellValue q.1 q.2 "").1
          (evs ++ (m.setCellValue q.1 q.2 "").2)
        exact ⟨h3.1.trans h2.1, (h3.2.1.trans h2.2.1), h3.2.2.trans h2.2.2⟩

theorem cellsFind_singleton (x : Cell) (rr cc : Nat) :
    cellsFind [x] rr cc = if atCoord rr cc x then some x else none := rfl

theorem cellsFind_emptyMap (l : List (Nat × Nat)) (hnd : l.Nodup) (rr cc : Nat) :
    cellsFind (l.map emptyCellAt) rr cc =
      if (rr, cc) ∈ l then some (emptyCellAt (rr, cc)) else none := by
  induction l with
  | nil => simp [cellsFind]
  | cons q rest ih =>
    have hnd2 := (List.nodup_cons.mp hnd).2
    have hqmem := (List.nodup_cons.mp hnd).1
    rw [List.map_cons, show emptyCellAt q :: rest.map emptyCellAt =
      [emptyCellAt q] ++ rest.map emptyCellAt from rfl, cellsFind_append, ih hnd2]
    by_cases hq : (rr, cc) = q
    · subst hq
      rw [if_neg hqmem, cellsFind_singleton]
      have hat : atCoord rr cc (emptyCellAt (rr, cc)) = true := by
        simp [atCoord, emptyCellAt]
      rw [if_pos hat, if_pos (List.mem_cons_self _ _)]
      rfl
    · rw [cellsFind_singleton]
      have hat : atCoord rr cc (emptyCellAt q) = false := by
        simp only [atCoord, emptyCellAt]
        rw [Bool.and_eq_false_iff]
        by_cases h1 : q.1 = rr
        · refine Or.inr ?_
          simp only [decide_eq_false_iff_not]
          intro h2
          exact hq (Prod.ext h1.symm h2.symm)
        · exact Or.inl (by simpa using h1)
      rw [hat]
      simp only [Bool.false_eq_true, if_false]
      by_cases hmem : (rr, cc) ∈ rest
      · rw [if_pos hmem, if_pos (List.mem_cons_of_mem q hmem)]
        rfl
      · rw [if_neg hmem, if_neg (fun hc2 => by
          rcases List.mem_cons.mp hc2 with h3 | h3
          · exact hq h3
          · exact hmem h3)]
        rfl


/-- The model after the in-place span reset of the leading cell. -/
def splitReset (m : TableModel) (r c : Nat) : TableModel :=
  { m with cells := updateLast m.cells (atCoord r c) resetSpansCell }

theorem splitCell_big_eq (m : TableModel) (r c : Nat) (lead : Cell)
    (hlead : m.getCell r c = some lead)
    (hbig : ¬(spanOf lead.rowSpan = 1 ∧ spanOf lead.colSpan = 1)) :
    splitCell m r c = (.ok,
      (splitFill (splitReset m r c, [])
        (rectCoords r c (spanOf lead.rowSpan) (spanOf lead.colSpan)) r c).1,
      (splitFill (splitReset m r c, [])
        (rectCoords r c (spanOf lead.rowSpan) (spanOf lead.colSpan)) r c).2 ++
        [.splitEv r c (spanOf lead.rowSpan) (spanOf lead.colSpan)]) := by
  unfold splitCell
  rw [hlead]
  dsimp only
  rw [if_neg hbig]
  rfl

theorem resetSpansCell_coord (r c : Nat) : ∀ x : Cell, atCoord r c x = true →
    atCoord r c (resetSpansCell x) = true := by
  intro x hx
  simpa [atCoord, resetSpansCell] using hx

theorem splitReset_find_other (m : TableModel) (r c rr cc : Nat)
    (hne : ¬(rr = r ∧ cc = c)) :
    cellsFind (splitReset m r c).cells rr cc = cellsFind m.cells rr cc :=
  cellsFind_updateLast_other m.cells r c rr cc resetSpansCell hne (resetSpansCell_coord r c)

/-- C10: a successful `splitCell` on a merged leading cell changes only the
former merge rectangle — the leading cell keeps its value, classes and data
with both spans reset to 1, an empty 1×1 leading cell appears at every other
coordinate of the rectangle where none existed, cells already present inside
are untouched, every coordinate outside the rectangle resolves exactly as
before, and the grid (dimensions, headerRows, columnSizes), meta and version
are unchanged. -/
theorem C10_splitCell_frame (m : TableModel) (r c : Nat) (lead : Cell)
    (hlead : m.getCell r c = some lead)
    (hbig : ¬(spanOf lead.rowSpan = 1 ∧ spanOf lead.colSpan = 1)) :
    (splitCell m r c).1 = .ok ∧
    (splitCell m r c).2.1.grid = m.grid ∧
    (splitCell m r c).2.1.meta = m.meta ∧
    (splitCell m r c).2.1.version = m.version ∧
    (splitCell m r c).2.1.getCell r c =
      some { lead with rowSpan := some 1, colSpan := some 1 } ∧
    (∀ rr cc, r ≤ rr → rr < r + spanOf lead.rowSpan →
      c ≤ cc → cc < c + spanOf lead.colSpan → ¬(rr = r ∧ cc = c) →
      m.getCell rr cc = none →
      (splitCell m r c).2.1.getCell rr cc = some (emptyCellAt (rr, cc))) ∧
    (∀ rr cc x, r ≤ rr → rr < r + spanOf lead.rowSpan →
      c ≤ cc → cc < c + spanOf lead.colSpan → ¬(rr = r ∧ cc = c) →
      m.getCell rr cc = some x →
      (splitCell m r c).2.1.getCell rr cc = some x) ∧
    (∀ rr cc, ¬(r ≤ rr ∧ rr < r + spanOf lead.rowSpan ∧
        c ≤ cc ∧ cc < c + spanOf lead.colSpan) →
      (splitCell m r c).2.1.getCell rr cc = m.getCell rr cc) := by
  have hres := splitCell_big_eq m r c lead hlead hbig
  have hndf := List.Nodup.filter
    (needsFill (splitReset m r c).cells r c)
    (rectCoords_nodup r c (spanOf lead.rowSpan) (spanOf lead.colSpan))
  have hbatch := splitFill_cells r c
    (rectCoords r c (spanOf lead.rowSpan) (spanOf lead.colSpan)) (splitReset m r c) []
    (rectCoords_nodup r c (spanOf lead.rowSpan) (spanOf lead.colSpan))
  have hframe := splitFill_frame r c
    (rectCoords r c (spanOf lead.rowSpan) (spanOf lead.colSpan)) (splitReset m r c) []
  refine ⟨by rw [hres], by rw [hres]; exact hframe.1, by rw [hres]; exact hframe.2.1,
    by rw [hres]; exact hframe.2.2, ?_, ?_, ?_, ?_⟩
  · rw [hres]
    show cellsFind _ r c = _
    rw [hbatch, cellsFind_append, cellsFind_emptyMap _ hndf r c]
    rw [if_neg (by
      intro hmem
      have := (List.mem_filter.mp hmem).2
      simp [needsFill] at this)]
    show cellsFind (updateLast m.cells (atCoord r c) resetSpansCell) r c = _
    rw [cellsFind_updateLast_self m.cells r c resetSpansCell (resetSpansCell_coord r c)]
    rw [show cellsFind m.cells r c = some lead from hlead]
    rfl
  · intro rr cc h1 h2 h3 h4 hne hnone
    rw [hres]
    show cellsFind _ rr cc = _
    rw [hbatch, cellsFind_append, cellsFind_emptyMap _ hndf rr cc]
    rw [if_pos (List.mem_filter.mpr ⟨(mem_rectCoords _ _ _ _ _).mpr ⟨h1, h2, h3, h4⟩, by
      simp only [needsFill]
      rw [show cellsFind (splitReset m r c).cells rr cc = cellsFind m.cells rr cc from
        splitReset_find_other m r c rr cc hne]
      rw [show cellsFind m.cells rr cc = none from hnone]
      simp only [Option.isNone_none, Bool.and_true]
      by_cases hr1 : rr = r
      · have hr2 : ¬cc = c := fun h => hne ⟨hr1, h⟩
        simp [hr1, hr2]
      · simp [hr1]⟩)]
    rfl
  · intro rr cc x h1 h2 h3 h4 hne hsome
    rw [hres]
    show cellsFind _ rr cc = _
    rw [hbatch, cellsFind_append, cellsFind_emptyMap _ hndf rr cc]
    rw [if_neg (by
      intro hmem
      have hpred := (List.mem_filter.mp hmem).2
      simp only [needsFill] at hpred
      rw [splitReset_find_other m r c rr cc hne,
        show cellsFind m.cells rr cc = some x from hsome] at hpred
      simp at hpred)]
    show (Option.none).or (cellsFind (splitReset m r c).cells rr cc) = _
    rw [show (Option.none).or (cellsFind (splitReset m r c).cells rr cc) =
      cellsFind (splitReset m r c).cells rr cc from rfl]
    rw [splitReset_find_other m r c rr cc hne]
    exact hsome
  · intro rr cc hout
    have hne : ¬(rr = r ∧ cc = c) := by
      intro hc2
      apply hout
      have hrs := one_le_spanOf lead.rowSpan
      have hcs := one_le_spanOf lead.colSpan
      omega
    rw [hres]
    show cellsFind _ rr cc = _
    rw [hbatch, cellsFind_append, cellsFind_emptyMap _ hndf rr cc]
    rw [if_neg (by
      intro hmem
      have hmem2 := (List.mem_filter.mp hmem).1
      rw [mem_rectCoords] at hmem2
      exact hout (by simpa using hmem2))]
    show (Option.none).or (cellsFind (splitReset m r c).cells rr cc) = _
    rw [show (Option.none).or (cellsFind (splitReset m r c).cells rr cc) =
      cellsFind (splitReset m r c).cells rr cc from rfl]
    rw [splitReset_find_other m r c rr cc hne]
    rfl

/-- C10 witness: splitting a 2×2 merge carrying a value and a class keeps
them on the leading cell with spans 1 and creates an empty cell at `(1,1)`. -/
theorem C10_witness :
    (splitCell ⟨1, ⟨"t", none, none⟩, ⟨2, 2, 0, none⟩,
      [⟨0, 0, "v", some 2, some 2, some ["x"], none⟩]⟩ 0 0).1 = .ok ∧
    (splitCell ⟨1, ⟨"t", none, none⟩, ⟨2, 2, 0, none⟩,
      [⟨0, 0, "v", some 2, some 2, some ["x"], none⟩]⟩ 0 0).2.1.getCell 0 0 =
      some ⟨0, 0, "v", some 1, some 1, some ["x"], none⟩ ∧
    (splitCell ⟨1, ⟨"t", none, none⟩, ⟨2, 2, 0, none⟩,
      [⟨0, 0, "v", some 2, some 2, some ["x"], none⟩]⟩ 0 0).2.1.getCell 1 1 =
      some (emptyCellAt (1, 1)) := by
  have h := C10_splitCell_frame
    ⟨1, ⟨"t", none, none⟩, ⟨2, 2, 0, none⟩, [⟨0, 0, "v", some 2, some 2, some ["x"], none⟩]⟩
    0 0 ⟨0, 0, "v", some 2, some 2, some ["x"], none⟩ (by decide) (by decide)
  exact ⟨h.1, h.2.2.2.2.1, h.2.2.2.2.2.1 1 1 (by decide) (by decide) (by decide) (by decide)
    (by decide) (by decide)⟩

theorem mergeRange_success_eq (m : TableModel) (r1 c1 r2 c2 : Nat) (lead : Cell)
    (h12 : r1 ≤ r2) (h34 : c1 ≤ c2) (hr : r2 < m.grid.rows) (hc : c2 < m.grid.cols)
    (hbig : ¬(r1 = r2 ∧ c1 = c2)) (hguard : mergeGuardLoop r1 c1 r2 c2 m.cells = none)
    (hlead : m.getCell r1 c1 = some lead) :
    mergeRange m r1 c1 r2 c2 = (.ok,
      { m with cells := (updateLast m.cells (atCoord r1 c1)
          (fun _ => mergedLead lead (r2 - r1 + 1) (c2 - c1 + 1)
            (collectValues m r1 c1 r2 c2))).filter (mergeKeep r1 c1 r2 c2) },
      (if (collectValues m r1 c1 r2 c2).isEmpty then []
        else [.cellChangeValue r1 c1 lead.value
          (String.intercalate " " (collectValues m r1 c1 r2 c2))]) ++
        [.mergeEv r1 c1 r2 c2 (r2 - r1 + 1) (c2 - c1 + 1)]) := by
  unfold mergeRange
  rw [Nat.min_eq_left h12, Nat.max_eq_right h12, Nat.min_eq_left h34, Nat.max_eq_right h34]
  rw [if_neg (by omega)]
  rw [if_neg (by omega)]
  rw [hguard]
  dsimp only
  rw [hlead]
  dsimp only [Option.isNone_some]
  simp only [Bool.false_eq_true, if_false]
  rw [hlead]
  dsimp only
  rw [List.nil_append]

/-- Is this a `cell:change` event with field `value`? -/
def isCellChangeValueB : Event → Bool
  | .cellChangeValue _ _ _ _ => true
  | _ => false

theorem mergedLead_coords (lead : Cell) (a b : Nat) (col : List String) :
    (mergedLead lead a b col).r = lead.r ∧ (mergedLead lead a b col).c = lead.c := by
  unfold mergedLead
  split <;> simp

/-- C4 (amended): on a successful merge of a normalised rectangle larger than
1×1 whose leading cell already exists, `mergeRange` emits exactly one
`cell:change`/`value` event when any text was collected and none otherwise
(never one per absorbed cell) followed by the single `merge` event; the
leading cell gets the spans and, when text was collected, the space-joined
row-major concatenation of the trimmed non-empty values; every other cell
inside the rectangle is removed; grid and meta are untouched. -/
theorem C4_mergeRange_amended (m : TableModel) (r1 c1 r2 c2 : Nat) (lead : Cell)
    (h12 : r1 ≤ r2) (h34 : c1 ≤ c2) (hr : r2 < m.grid.rows) (hc : c2 < m.grid.cols)
    (hbig : ¬(r1 = r2 ∧ c1 = c2)) (hguard : mergeGuardLoop r1 c1 r2 c2 m.cells = none)
    (hlead : m.getCell r1 c1 = some lead) :
    (mergeRange m r1 c1 r2 c2).1 = .ok ∧
    (mergeRange m r1 c1 r2 c2).2.2 =
      (if (collectValues m r1 c1 r2 c2).isEmpty then []
        else [.cellChangeValue r1 c1 lead.value
          (String.intercalate " " (collectValues m r1 c1 r2 c2))]) ++
        [.mergeEv r1 c1 r2 c2 (r2 - r1 + 1) (c2 - c1 + 1)] ∧
    ((mergeRange m r1 c1 r2 c2).2.2.filter isCellChangeValueB).length =
      (if (collectValues m r1 c1 r2 c2).isEmpty then 0 else 1) ∧
    (mergeRange m r1 c1 r2 c2).2.1.getCell r1 c1 =
      some (mergedLead lead (r2 - r1 + 1) (c2 - c1 + 1) (collectValues m r1 c1 r2 c2)) ∧
    (∀ rr cc, r1 ≤ rr → rr ≤ r2 → c1 ≤ cc → cc ≤ c2 → ¬(rr = r1 ∧ cc = c1) →
      (mergeRange m r1 c1 r2 c2).2.1.getCell rr cc = none) ∧
    (mergeRange m r1 c1 r2 c2).2.1.grid = m.grid ∧
    (mergeRange m r1 c1 r2 c2).2.1.meta = m.meta := by
  have hchar := mergeRange_success_eq m r1 c1 r2 c2 lead h12 h34 hr hc hbig hguard hlead
  have hcoords := cellsFind_some_coords (show cellsFind m.cells r1 c1 = some lead from hlead)
  have hml := mergedLead_coords lead (r2 - r1 + 1) (c2 - c1 + 1) (collectValues m r1 c1 r2 c2)
  have hfml : ∀ x : Cell, atCoord r1 c1 x = true →
      atCoord r1 c1 (mergedLead lead (r2 - r1 + 1) (c2 - c1 + 1)
        (collectValues m r1 c1 r2 c2)) = true := by
    intro x _
    simp [atCoord, hml.1, hml.2, hcoords.1, hcoords.2]
  refine ⟨by rw [hchar], by rw [hchar], ?_, ?_, ?_, by rw [hchar], by rw [hchar]⟩
  · rw [hchar]
    dsimp only
    by_cases he : (collectValues m r1 c1 r2 c2).isEmpty = true
    · rw [if_pos he, if_pos he]
      simp [isCellChangeValueB]
    · rw [if_neg he, if_neg he]
      simp [isCellChangeValueB]
  · rw [hchar]
    show cellsFind _ r1 c1 = _
    rw [cellsFind_filter _ _ r1 c1 (by
      intro x hx1 hx2
      simp [mergeKeep, hx1, hx2])]
    rw [cellsFind_updateLast_self m.cells r1 c1 _ hfml]
    rw [show cellsFind m.cells r1 c1 = some lead from hlead]
    rfl
  · intro rr cc hb1 hb2 hb3 hb4 hne
    rw [hchar]
    show cellsFind _ rr cc = _
    refine cellsFind_eq_none ?_
    intro x hx
    have hkeep := (List.mem_filter.mp hx).2
    intro hcc
    rw [show mergeKeep r1 c1 r2 c2 x =
      ((decide (x.r = r1) && decide (x.c = c1)) ||
        !(decide (r1 ≤ x.r) && decide (x.r ≤ r2) && decide (c1 ≤ x.c) && decide (x.c ≤ c2)))
      from rfl] at hkeep
    rw [hcc.1, hcc.2] at hkeep
    have hfirst : (decide (rr = r1) && decide (cc = c1)) = false := by
      by_cases hq1 : rr = r1
      · have hq2 : ¬cc = c1 := fun h => hne ⟨hq1, h⟩
        simp [hq1, hq2]
      · simp [hq1]
    rw [hfirst] at hkeep
    simp only [Bool.false_or, Bool.not_eq_true', Bool.and_eq_false_iff,
      decide_eq_false_iff_not] at hkeep
    omega

/-- C4 witness: the specification's own example — merging the 2×2 corner
holding Привет, a blank, мир and ! yields the leading value
"Привет мир !" with exactly one `cell:change`/`value` event. -/
theorem C4_witness :
    (mergeRange ⟨1, ⟨"t", none, none⟩, ⟨4, 4, 0, none⟩,
      [⟨0, 0, "Привет", some 1, some 1, none, none⟩, ⟨0, 1, " ", some 1, some 1, none, none⟩,
        ⟨1, 0, "мир", some 1, some 1, none, none⟩, ⟨1, 1, "!", some 1, some 1, none, none⟩]⟩
      0 0 1 1).1 = .ok ∧
    (mergeRange ⟨1, ⟨"t", none, none⟩, ⟨4, 4, 0, none⟩,
      [⟨0, 0, "Привет", some 1, some 1, none, none⟩, ⟨0, 1, " ", some 1, some 1, none, none⟩,
        ⟨1, 0, "мир", some 1, some 1, none, none⟩, ⟨1, 1, "!", some 1, some 1, none, none⟩]⟩
      0 0 1 1).2.2 =
      [.cellChangeValue 0 0 "Привет" "Привет мир !", .mergeEv 0 0 1 1 2 2] ∧
    ((mergeRange ⟨1, ⟨"t", none, none⟩, ⟨4, 4, 0, none⟩,
      [⟨0, 0, "Привет", some 1, some 1, none, none⟩, ⟨0, 1, " ", some 1, some 1, none, none⟩,
        ⟨1, 0, "мир", some 1, some 1, none, none⟩, ⟨1, 1, "!", some 1, some 1, none, none⟩]⟩
      0 0 1 1).2.2.filter isCellChangeValueB).length = 1 ∧
    (mergeRange ⟨1, ⟨"t", none, none⟩, ⟨4, 4, 0, none⟩,
      [⟨0, 0, "Привет", some 1, some 1, none, none⟩, ⟨0, 1, " ", some 1, some 1, none, none⟩,
        ⟨1, 0, "мир", some 1, some 1, none, none⟩, ⟨1, 1, "!", some 1, some 1, none, none⟩]⟩
      0 0 1 1).2.1.getCell 0 0 =
      some ⟨0, 0, "Привет мир !", some 2, some 2, none, none⟩ := by
  have h := C4_mergeRange_amended ⟨1, ⟨"t", none, none⟩, ⟨4, 4, 0, none⟩,
      [⟨0, 0, "Привет", some 1, some 1, none, none⟩, ⟨0, 1, " ", some 1, some 1, none, none⟩,
        ⟨1, 0, "мир", some 1, some 1, none, none⟩, ⟨1, 1, "!", some 1, some 1, none, none⟩]⟩
    0 0 1 1 ⟨0, 0, "Привет", some 1, some 1, none, none⟩
    (by decide) (by decide) (by decide) (by decide) (by decide) (by decide) (by decide)
  exact ⟨h.1, h.2.1.trans (by decide), (h.2.2.1).trans (by decide),
    (h.2.2.2.1).trans (by decide)⟩
